import Mathlib

/-!
UTM D32 firmware: command parser, dispatch, smoothing window and rate limiters.

A shallow embedding of `D32_Firmware/src/CommandHandler.cpp`,
`D32_Firmware/src/main.cpp` and `D32_Firmware/backup/Sensors.cpp`.

Conventions of the embedding:
* a byte is a `Nat`; a character buffer is a `List Nat`; reading a buffer past
  its end yields the NUL byte, so every buffer is implicitly NUL-terminated;
* calls on the external collaborators (`Serial`, `stepper`, `Wire`, the AS5600
  driver, pins) are recorded, in program order, as a list of `Effect`s; what
  the collaborators answer (clock readings, arriving bytes, button edges, sensor
  and load readings) is an argument of the function that asks;
* a `float` value is the rational it denotes; the conversion and the division
  of the `SetSpeed` echo are rounded to binary32, the sensor arithmetic of the
  smoothing window is exact;
* differences of `unsigned long` / `uint32_t` clock readings are taken modulo
  `2 ^ 32`; `int` and `long` are 32 bits wide;
* a loop that waits on the environment takes the finite list of what the
  environment does in each pass and returns `none` when the list is used up
  before the loop is left.
-/

namespace UTM

/-! ## C strings -/

/-- The bytes of a string literal. -/
def bytes (s : String) : List Nat := s.toList.map Char.toNat

/-- The C string held in a buffer: the bytes before the first NUL. -/
def cstr (buf : List Nat) : List Nat := buf.takeWhile (fun c => c != 0)

/-- Modelled from the spec: the C library `strlen`, which is not part of the
repository: the number of bytes before the first NUL. -/
def strlen : List Nat → Nat
  | [] => 0
  | c :: cs => if c = 0 then 0 else strlen cs + 1

/-- Modelled from the spec: the C library `strcmp`, which is not part of the
repository ("exact, case-sensitive comparison of the whole current line"): the
difference of the first pair of bytes that differ, `0` when both strings end
together. -/
def strcmp : List Nat → List Nat → Int
  | [], [] => 0
  | [], d :: _ => 0 - (d : Int)
  | c :: _, [] => (c : Int)
  | c :: cs, d :: ds =>
    if c ≠ d then (c : Int) - (d : Int)
    else if c = 0 then 0
    else strcmp cs ds

/-- Modelled from the spec: the C library `strncmp`, which is not part of the
repository ("prefix-length comparison"): as `strcmp`, over at most `n` bytes. -/
def strncmp : List Nat → List Nat → Nat → Int
  | _, _, 0 => 0
  | [], [], _ + 1 => 0
  | [], d :: _, _ + 1 => 0 - (d : Int)
  | c :: _, [], _ + 1 => (c : Int)
  | c :: cs, d :: ds, n + 1 =>
    if c ≠ d then (c : Int) - (d : Int)
    else if c = 0 then 0
    else strncmp cs ds n

/-- Modelled from the spec: the C library `isspace`, which is not part of the
repository, in the "C" locale: space, tab, line feed, vertical tab, form feed and
carriage return. -/
def isspace (c : Nat) : Bool := c = 32 || (9 ≤ c && c ≤ 13)

/-- Modelled from the spec: the C library `isdigit`, which is not part of the
repository. -/
def isdigit (c : Nat) : Bool := 48 ≤ c && c ≤ 57

/-- Modelled from the spec: largest value of `int` and of `long` on the target of
the firmware, the ESP32 of the D32 board, where both types are 32 bits wide. -/
def LONG_MAX : Int := 2147483647

/-- Modelled from the spec: smallest value of `int` and of `long` on the target
of the firmware. -/
def LONG_MIN : Int := -2147483648

/-- Modelled from the spec: the digit loop of the C library `strtol`, which is
not part of the repository: accumulates `acc * 10 + digit` over the leading run
of decimal digits and stops at the first byte that is not a digit. -/
def digitLoop : List Nat → Nat → Nat
  | [], acc => acc
  | c :: cs, acc => if isdigit c then digitLoop cs (acc * 10 + (c - 48)) else acc

/-- Modelled from the spec: the C library `strtol(s, NULL, 10)`, which is not
part of the repository ("standard numeric-prefix parsing rules"): white space is
skipped, one optional sign is read, then the leading decimal digits; no digit
gives 0; a value outside the range of `long` is clamped to `LONG_MIN` /
`LONG_MAX`. -/
def strtol (s : List Nat) : Int :=
  match s.dropWhile isspace with
  | 45 :: r => max LONG_MIN (0 - (digitLoop r 0 : Int))
  | 43 :: r => min LONG_MAX (digitLoop r 0 : Int)
  | r => min LONG_MAX (digitLoop r 0 : Int)

/-- Modelled from the spec: the C library `atol`, which is not part of the
repository: `strtol(s, NULL, 10)`. -/
def atol (s : List Nat) : Int := strtol s

/-- Modelled from the spec: the C library `atoi`, which is not part of the
repository: `(int) strtol(s, NULL, 10)`; `int` and `long` have the same width on
the target. -/
def atoi (s : List Nat) : Int := strtol s

/-! ## CommandHandler -/

/-- `CommandHandler::CMD_BUFFER_SIZE`. -/
def CMD_BUFFER_SIZE : Nat := 64

/-- `CommandHandler::is`. -/
def is (cmdBuffer : List Nat) (cmd : List Nat) : Bool :=
  strcmp cmdBuffer cmd == 0

/-- `CommandHandler::startsWith`. -/
def startsWith (cmdBuffer : List Nat) (pre : List Nat) : Bool :=
  strncmp cmdBuffer pre (strlen pre) == 0

/-- The `for` loop of `CommandHandler::findSpace` from index `i` on, over the
slots that are left. -/
def findSpaceLoop : List Nat → Nat → Int
  | [], _ => -1
  | c :: cs, i =>
    if c = 32 then (i : Int)
    else if c = 0 then -1
    else findSpaceLoop cs (i + 1)

/-- `CommandHandler::findSpace`: index of the first space among the first
`CMD_BUFFER_SIZE` slots and before the NUL, `-1` when there is none. -/
def findSpace (cmdBuffer : List Nat) : Int :=
  findSpaceLoop (cmdBuffer.take CMD_BUFFER_SIZE) 0

/-- `CommandHandler::getIntParam`. -/
def getIntParam (cmdBuffer : List Nat) : Int :=
  let spaceIdx := findSpace cmdBuffer
  if spaceIdx < 0 then 0
  else atoi (cmdBuffer.drop (spaceIdx + 1).toNat)

/-- `CommandHandler::getLongParam`. -/
def getLongParam (cmdBuffer : List Nat) : Int :=
  let spaceIdx := findSpace cmdBuffer
  if spaceIdx < 0 then 0
  else atol (cmdBuffer.drop (spaceIdx + 1).toNat)

/-! ## Serial intake: `CommandHandler::readCommand` -/

/-- Difference of two `unsigned long` clock readings, as the 32-bit target
computes `millis() - startTime`. -/
def elapsed (startTime now : Nat) : Nat := (now + 2 ^ 32 - startTime % 2 ^ 32) % 2 ^ 32

/-- What the environment does during one pass of the `while` loop of
`readCommand`: the bytes that reach the receive queue before the pass calls
`Serial.available()`, and the value `millis()` returns at the timeout test. -/
structure Tick where
  arrive : List Nat
  now : Nat
deriving DecidableEq, Repr

/-- State of the `while` loop of `readCommand` when it is left. -/
structure LoopExit where
  idx : Nat
  cmdBuffer : List Nat
  rx : List Nat
  rest : List Tick
deriving DecidableEq, Repr

/-- The `while (idx < CMD_BUFFER_SIZE - 1)` loop of `readCommand`. `rx` is the
receive queue, oldest byte first. Each pass uses up one `Tick`; `none` means the
loop is still running when the given ticks are used up. -/
def readLoop (startTime : Nat) : List Tick → Nat → List Nat → List Nat → Option LoopExit
  | [], idx, cmdBuffer, rx =>
    if idx < CMD_BUFFER_SIZE - 1 then none
    else some ⟨idx, cmdBuffer, rx, []⟩
  | t :: ts, idx, cmdBuffer, rx =>
    if idx < CMD_BUFFER_SIZE - 1 then
      match rx ++ t.arrive with
      | c :: rx1 =>
        if c = 10 ∨ c = 13 then some ⟨idx, cmdBuffer, rx1, ts⟩
        else if elapsed startTime t.now > 100 then some ⟨idx + 1, cmdBuffer.set idx c, rx1, ts⟩
        else readLoop startTime ts (idx + 1) (cmdBuffer.set idx c) rx1
      | [] =>
        if elapsed startTime t.now > 100 then some ⟨idx, cmdBuffer, [], ts⟩
        else readLoop startTime ts idx cmdBuffer []
    else some ⟨idx, cmdBuffer, rx, t :: ts⟩

/-- Outcome of one call of `readCommand`: the returned flag, the command
buffer, the receive queue and the ticks that were not used. -/
structure ReadResult where
  ret : Bool
  cmdBuffer : List Nat
  rx : List Nat
  rest : List Tick
deriving DecidableEq, Repr

/-- `CommandHandler::readCommand`. `rx` is the receive queue on entry,
`startTime` the reading of `millis()` taken before the loop. -/
def readCommand (cmdBuffer rx : List Nat) (startTime : Nat) (ticks : List Tick) :
    Option ReadResult :=
  if rx = [] then some ⟨false, cmdBuffer, rx, ticks⟩
  else
    match readLoop startTime ticks 0 cmdBuffer rx with
    | none => none
    | some e => some ⟨decide (e.idx > 0), e.cmdBuffer.set e.idx 0, e.rx, e.rest⟩

/-! ## Calls on the external collaborators -/

/-- One call on an external collaborator, with its arguments. `HIGH` is `true`,
`LOW` is `false`. -/
inductive Effect where
  | print (s : String)
  | println (s : String)
  | printInt (n : Int)
  | printlnInt (n : Int)
  | printFloat (x : ℚ)
  | printlnFloat (x : ℚ)
  | digitalWrite (pin : Nat) (level : Bool)
  | setSpeed (rpm10 : Int)
  | rotate (direction : Int)
  | move (steps : Int)
  | stop
  | setRampLen (ramp : Int)
  | wireBeginTransmission (address : Nat)
  | wireWrite (byte : Nat)
  | wireEndTransmission
  | as5600ReadAngle
  | delay (ms : Nat)
deriving DecidableEq, Repr

/-- The calls of an effect list that go to the motion controller `stepper`. -/
def motionCalls (effects : List Effect) : List Effect :=
  effects.filter fun e =>
    match e with
    | .setSpeed _ => true
    | .rotate _ => true
    | .move _ => true
    | .stop => true
    | .setRampLen _ => true
    | _ => false

/-- The bytes an effect list writes to the multiplexer bus. -/
def busBytes (effects : List Effect) : List Nat :=
  effects.filterMap fun e =>
    match e with
    | .wireWrite b => some b
    | _ => none

/-! ## Sensors (`backup/Sensors.cpp`, interface `src/Sensors.h`) -/

/-- `TCAADDR`. -/
def TCAADDR : Nat := 0x70

/-- `Sensors::tcaselect(uint8_t i)`. -/
def tcaselect (i : Nat) : List Effect :=
  if i > 1 then
    [.print "Error: We only have 2 sensors, index ", .printInt i, .println " provided."]
  else
    [.wireBeginTransmission TCAADDR, .wireWrite (1 <<< i), .wireEndTransmission]

/-- The conversion of an `int` argument to the `uint8_t` parameter of
`tcaselect`. -/
def toUint8 (id : Int) : Nat := (id % 256).toNat

/-- `Sensors::readAngle(int id)`; `raw` is what `as5600.readAngle()` returns,
`rawToDegrees` the library constant `AS5600_RAW_TO_DEGREES`. -/
def Sensors.readAngle (id : Int) (raw : Int) (rawToDegrees : ℚ) : List Effect × ℚ :=
  (tcaselect (toUint8 id) ++ [.as5600ReadAngle], raw * rawToDegrees)

/-- `Sensors::readTotalPosition(int id)`; `position` is what
`as5600.getCumulativePosition(false)` returns. -/
def Sensors.readTotalPosition (id : Int) (position : Int) : List Effect × Int :=
  (tcaselect (toUint8 id) ++ [.as5600ReadAngle], position)

/-- `Sensors::readAngularSpeed(int id)`; `speed` is what
`as5600.getAngularSpeed(AS5600_MODE_DEGREES, false)` returns. -/
def Sensors.readAngularSpeed (id : Int) (speed : ℚ) : List Effect × ℚ :=
  (tcaselect (toUint8 id) ++ [.as5600ReadAngle], speed)

/-- The `while(1)` loop of `Sensors::init`; `magnet` lists the answers of
`as5600.detectMagnet()`, `none` means the loop is still waiting when they are used
up. -/
def Sensors.initWait (magnitude : Int) : List Bool → Option (List Effect)
  | [] => none
  | true :: _ => some [.print "Current Magnitude: ", .printlnInt magnitude]
  | false :: rest =>
    match Sensors.initWait magnitude rest with
    | none => none
    | some es => some (.println "Can not detect magnet" :: .delay 1000 :: es)

/-- `Sensors::init(int id)`. -/
def Sensors.init (id : Int) (magnitude : Int) (magnet : List Bool) : Option (List Effect) :=
  let head : List Effect :=
    [.print "Selecting id", .printlnInt id] ++ tcaselect (toUint8 id) ++
      [.print "Initializing AS5600 id:", .printlnInt id]
  match magnet with
  | [] => none
  | true :: _ => some head
  | false :: rest =>
    match Sensors.initWait magnitude rest with
    | none => none
    | some es => some (head ++ es)

/-! ## Globals of `main.cpp` -/

/-- `FIRMWARE_VERSION`. -/
def FIRMWARE_VERSION : String := "1.2.0"

/-- `ENABLE_PIN`. -/
def ENABLE_PIN : Nat := 26

/-- `SENS_IDX`. -/
def SENS_IDX : Int := 0

/-- `NUMBER_READINGS`. -/
def NUMBER_READINGS : Nat := 20

/-- The global variables of `main.cpp`, the function-local statics
`delayTimeSensors` and `delayTimeLoadCell`, and the buffer of `*cmdHandler`. -/
structure Globals where
  readLoadCell : Bool
  readSensors : Bool
  totalPosition : Int
  angularSpeed : ℚ
  angularSpeedBuffer : List ℚ
  bufferIndex : Nat
  averageAngularSpeed : ℚ
  force : Int
  speedSwitchState : Bool
  delayTimeSensors : Nat
  delayTimeLoadCell : Nat
  cmdBuffer : List Nat
deriving DecidableEq, Repr

/-- The globals as the program starts: statics are zero-initialised,
`speedSwitchState` is `HIGH`, the constructor of `CommandHandler` stores a NUL in
slot 0 of its buffer (the other slots are modelled as NUL too). -/
def Globals.initial : Globals where
  readLoadCell := false
  readSensors := false
  totalPosition := 0
  angularSpeed := 0
  angularSpeedBuffer := List.replicate NUMBER_READINGS 0
  bufferIndex := 0
  averageAngularSpeed := 0
  force := 0
  speedSwitchState := true
  delayTimeSensors := 0
  delayTimeLoadCell := 0
  cmdBuffer := List.replicate CMD_BUFFER_SIZE 0

/-! ## Smoothing window and the two rate limiters -/

/-- `Average(float buffer[])`. -/
def Average (buffer : List ℚ) : ℚ :=
  ((List.range NUMBER_READINGS).foldl (fun sum i => sum + buffer.getD i 0) 0) / NUMBER_READINGS

/-- The body of the `if` of `ProcessSensors`, from the sensor reads on: `position`
and `speed` are the answers of the AS5600 driver. -/
def pollSensors (g : Globals) (position : Int) (speed : ℚ) : Globals × List Effect :=
  let r1 := Sensors.readTotalPosition SENS_IDX position
  let r2 := Sensors.readAngularSpeed SENS_IDX speed
  let angularSpeed := r2.2 / 6
  let buffer := g.angularSpeedBuffer.set g.bufferIndex angularSpeed
  let average := Average buffer
  let g1 : Globals :=
    { g with
      totalPosition := r1.2
      angularSpeed := angularSpeed
      angularSpeedBuffer := buffer
      bufferIndex := (g.bufferIndex + 1) % NUMBER_READINGS
      averageAngularSpeed := average }
  (g1, r1.1 ++ r2.1 ++
    (if g.readSensors then
      [.printInt r1.2, .print "\t", .printFloat angularSpeed, .print "\t",
       .printFloat average, .print "\n"]
     else []))

/-- `ProcessSensors`; `tCheck` and `tStamp` are the two readings of `millis()`. -/
def ProcessSensors (g : Globals) (tCheck tStamp : Nat) (position : Int) (speed : ℚ) :
    Globals × List Effect :=
  if elapsed g.delayTimeSensors tCheck ≥ 50 then
    pollSensors { g with delayTimeSensors := tStamp } position speed
  else (g, [])

/-- `ReportLoadCell`; `tCheck` and `tStamp` are the two readings of `millis()`. -/
def ReportLoadCell (g : Globals) (tCheck tStamp : Nat) : Globals × List Effect :=
  if g.readLoadCell then
    if elapsed g.delayTimeLoadCell tCheck ≥ 50 then
      ({ g with delayTimeLoadCell := tStamp }, [.printInt g.force, .print "\n"])
    else (g, [])
  else (g, [])

/-! ## Buttons -/

/-- The edge events `buttons.pressed` / `buttons.released` report in one call of
`CheckButtonStates`, and the level `digitalRead(SPEED_SWITCH_PIN)` returns. -/
structure ButtonInput where
  upPressed : Bool
  upReleased : Bool
  downPressed : Bool
  downReleased : Bool
  speedSwitch : Bool
deriving DecidableEq, Repr

/-- `MoveUp`. -/
def MoveUp (g : Globals) : List Effect :=
  .digitalWrite ENABLE_PIN true ::
    ((if g.speedSwitchState = false then
        [.println "Going up fast!", .setSpeed 5000]
      else
        [.println "Going up!", .setSpeed 500]) ++ [.rotate (-1)])

/-- `MoveDown`. -/
def MoveDown (g : Globals) : List Effect :=
  .digitalWrite ENABLE_PIN true ::
    ((if g.speedSwitchState = false then
        [.println "Going down fast!", .setSpeed 5000]
      else
        [.println "Going down!", .setSpeed 500]) ++ [.rotate 1])

/-- `Stop`. -/
def Stop : List Effect := [.println "Stop and halt!", .rotate 0]

/-- `CheckButtonStates`. -/
def CheckButtonStates (g : Globals) (b : ButtonInput) : Globals × List Effect :=
  let g1 : Globals := { g with speedSwitchState := b.speedSwitch }
  (g1,
    (if b.upPressed then MoveUp g1 else []) ++
    (if b.upReleased then Stop else []) ++
    (if b.downPressed then MoveDown g1 else []) ++
    (if b.downReleased then Stop else []))

/-! ## Single-precision arithmetic -/

/-- Rounding of a rational to the nearest integer, a tie going to the even
neighbour. -/
def roundHalfEven (y : ℚ) : Int :=
  if y - ⌊y⌋ < 1 / 2 then ⌊y⌋
  else if 1 / 2 < y - ⌊y⌋ then ⌊y⌋ + 1
  else if ⌊y⌋ % 2 = 0 then ⌊y⌋
  else ⌊y⌋ + 1

/-- The binary exponent a `float` gives to the value `x`: the largest `e` with
`2 ^ e ≤ |x|`, and not below -126, the exponent of the subnormal range. -/
def binade (x : ℚ) : Int := max (Int.log 2 |x|) (-126)

/-- Modelled from the spec: the rounding of the `float` type of the target,
which is not part of the repository: IEEE 754 binary32, a significand of 24
bits, round to nearest, ties to even. The value is a multiple of
`2 ^ (binade x - 23)`. Overflow to infinity, which needs a magnitude of `2 ^ 128`,
is not modelled: no `int` or quotient of one reaches it. -/
def f32 (x : ℚ) : ℚ := roundHalfEven (x / 2 ^ (binade x - 23)) * 2 ^ (binade x - 23)

/-- The conversion `(float)n` of an `int`. -/
def floatOfInt (n : Int) : ℚ := f32 n

/-- The division of two `float` values. -/
def floatDiv (a b : ℚ) : ℚ := f32 (a / b)

/-! ## Command dispatch -/

/-- Answers of the motion controller to the calls that return a value:
`stepper.readSteps()` and `stepper.setRampLen(ramp)`. -/
structure StepperReplies where
  steps : Int
  rampLen : Nat
deriving DecidableEq, Repr

/-- The `if` / `else if` chain of `ProcessSerialCommands`, entered once
`readCommand` has returned `true`. -/
def dispatch (g : Globals) (st : StepperReplies) : Globals × List Effect :=
  if is g.cmdBuffer (bytes "LoadCellOn") then ({ g with readLoadCell := true }, [])
  else if is g.cmdBuffer (bytes "LoadCellOff") then ({ g with readLoadCell := false }, [])
  else if is g.cmdBuffer (bytes "SensorsOn") then ({ g with readSensors := true }, [])
  else if is g.cmdBuffer (bytes "SensorsOff") then ({ g with readSensors := false }, [])
  else if is g.cmdBuffer (bytes "GetLoad") then
    (g, [.print "Load: ", .printlnInt g.force])
  else if is g.cmdBuffer (bytes "GetTotalAngle") then
    (g, [.print "Total Angle: ", .printlnInt g.totalPosition])
  else if is g.cmdBuffer (bytes "GetVelocity") then
    (g, [.print "Velocity: ", .printFloat g.angularSpeed, .print "\t",
         .printlnFloat g.averageAngularSpeed])
  else if is g.cmdBuffer (bytes "GetVersion") || is g.cmdBuffer (bytes "version")
      || is g.cmdBuffer (bytes "v") then
    (g, [.print "Firmware Version: ", .println FIRMWARE_VERSION])
  else if is g.cmdBuffer (bytes "GetSteps") then
    (g, [.print "Total Steps: ", .printlnInt st.steps])
  else if is g.cmdBuffer (bytes "Enable") then (g, [.digitalWrite ENABLE_PIN true])
  else if is g.cmdBuffer (bytes "Disable") then (g, [.digitalWrite ENABLE_PIN false])
  else if is g.cmdBuffer (bytes "Stop") then (g, [.rotate 0])
  else if is g.cmdBuffer (bytes "EStop") then (g, [.stop])
  else if is g.cmdBuffer (bytes "Up") then (g, [.rotate (-1)])
  else if is g.cmdBuffer (bytes "Down") then (g, [.rotate 1])
  else if is g.cmdBuffer (bytes "Start") then
    (g, [.digitalWrite ENABLE_PIN true, .println "Going Down with 100rpm", .setSpeed 1000,
         .rotate 1])
  else if startsWith g.cmdBuffer (bytes "SetSpeed") then
    let rpm10 := getIntParam g.cmdBuffer
    (g, [.print "Setting speed: ", .printFloat (floatDiv (floatOfInt rpm10) 10),
         .println " RPM", .setSpeed rpm10])
  else if startsWith g.cmdBuffer (bytes "MoveSteps") then
    let steps := getLongParam g.cmdBuffer
    (g, [.print "Moving: ", .printInt steps, .println " steps.", .move steps])
  else if startsWith g.cmdBuffer (bytes "SetRampLength") then
    let ramp := getIntParam g.cmdBuffer
    (g, [.print "Setting ramp length: ", .printInt ramp, .println " ramp length",
         .setRampLen ramp, .print "Current rampLen: ", .printlnInt st.rampLen])
  else (g, [])

/-- The conditions of the chain of `ProcessSerialCommands`, in program order. -/
def conditions (cmdBuffer : List Nat) : List Bool :=
  [ is cmdBuffer (bytes "LoadCellOn"),
    is cmdBuffer (bytes "LoadCellOff"),
    is cmdBuffer (bytes "SensorsOn"),
    is cmdBuffer (bytes "SensorsOff"),
    is cmdBuffer (bytes "GetLoad"),
    is cmdBuffer (bytes "GetTotalAngle"),
    is cmdBuffer (bytes "GetVelocity"),
    is cmdBuffer (bytes "GetVersion") || is cmdBuffer (bytes "version")
      || is cmdBuffer (bytes "v"),
    is cmdBuffer (bytes "GetSteps"),
    is cmdBuffer (bytes "Enable"),
    is cmdBuffer (bytes "Disable"),
    is cmdBuffer (bytes "Stop"),
    is cmdBuffer (bytes "EStop"),
    is cmdBuffer (bytes "Up"),
    is cmdBuffer (bytes "Down"),
    is cmdBuffer (bytes "Start"),
    startsWith cmdBuffer (bytes "SetSpeed"),
    startsWith cmdBuffer (bytes "MoveSteps"),
    startsWith cmdBuffer (bytes "SetRampLength") ]

/-- The bodies of the chain of `ProcessSerialCommands`, in program order: what
each one does to the globals and which calls it makes. -/
def handlers (g : Globals) (st : StepperReplies) : List (Globals × List Effect) :=
  [ ({ g with readLoadCell := true }, []),
    ({ g with readLoadCell := false }, []),
    ({ g with readSensors := true }, []),
    ({ g with readSensors := false }, []),
    (g, [.print "Load: ", .printlnInt g.force]),
    (g, [.print "Total Angle: ", .printlnInt g.totalPosition]),
    (g, [.print "Velocity: ", .printFloat g.angularSpeed, .print "\t",
         .printlnFloat g.averageAngularSpeed]),
    (g, [.print "Firmware Version: ", .println FIRMWARE_VERSION]),
    (g, [.print "Total Steps: ", .printlnInt st.steps]),
    (g, [.digitalWrite ENABLE_PIN true]),
    (g, [.digitalWrite ENABLE_PIN false]),
    (g, [.rotate 0]),
    (g, [.stop]),
    (g, [.rotate (-1)]),
    (g, [.rotate 1]),
    (g, [.digitalWrite ENABLE_PIN true, .println "Going Down with 100rpm", .setSpeed 1000,
         .rotate 1]),
    (g, [.print "Setting speed: ",
         .printFloat (floatDiv (floatOfInt (getIntParam g.cmdBuffer)) 10),
         .println " RPM", .setSpeed (getIntParam g.cmdBuffer)]),
    (g, [.print "Moving: ", .printInt (getLongParam g.cmdBuffer), .println " steps.",
         .move (getLongParam g.cmdBuffer)]),
    (g, [.print "Setting ramp length: ", .printInt (getIntParam g.cmdBuffer),
         .println " ramp length", .setRampLen (getIntParam g.cmdBuffer),
         .print "Current rampLen: ", .printlnInt st.rampLen]) ]

/-- First-match selection over a table of tests and bodies: the body of the
first test that holds, the fallback when none does. -/
def firstMatch {α : Type} (fallback : α) : List (Bool × α) → α
  | [] => fallback
  | (c, h) :: rest => if c then h else firstMatch fallback rest

/-- Outcome of `ProcessSerialCommands`. -/
structure SerialResult where
  g : Globals
  rx : List Nat
  rest : List Tick
  effects : List Effect
deriving DecidableEq, Repr

/-- `ProcessSerialCommands`. -/
def ProcessSerialCommands (g : Globals) (rx : List Nat) (startTime : Nat) (ticks : List Tick)
    (st : StepperReplies) : Option SerialResult :=
  match readCommand g.cmdBuffer rx startTime ticks with
  | none => none
  | some r =>
    let g1 : Globals := { g with cmdBuffer := r.cmdBuffer }
    if r.ret then
      let d := dispatch g1 st
      some ⟨d.1, r.rx, r.rest, d.2⟩
    else some ⟨g1, r.rx, r.rest, []⟩

/-! ## The main loop -/

/-- The firmware together with the receive queue of the serial port. -/
structure Machine where
  g : Globals
  rx : List Nat
deriving DecidableEq, Repr

/-- What the environment supplies during one pass of `loop`: serial bytes that
arrive before the pass, the clock readings and ticks of `readCommand`, the
answers of stepper, buttons, load cell and angle sensor, and the readings of
`millis()` in `ReportLoadCell` and `ProcessSensors`. -/
structure LoopEnv where
  arrive : List Nat
  startTime : Nat
  ticks : List Tick
  stepper : StepperReplies
  buttons : ButtonInput
  loadReady : Bool
  loadValue : Int
  tLoadCheck : Nat
  tLoadStamp : Nat
  tSensCheck : Nat
  tSensStamp : Nat
  position : Int
  speed : ℚ
deriving DecidableEq, Repr

/-- Outcome of one pass of `loop`: the machine and the calls of each of the four
stages. -/
structure LoopResult where
  m : Machine
  serial : List Effect
  buttons : List Effect
  load : List Effect
  sensors : List Effect
deriving DecidableEq, Repr

/-- `loop`. -/
def loop (m : Machine) (e : LoopEnv) : Option LoopResult :=
  match ProcessSerialCommands m.g (m.rx ++ e.arrive) e.startTime e.ticks e.stepper with
  | none => none
  | some s =>
    let b := CheckButtonStates s.g e.buttons
    let l :=
      if e.loadReady then ReportLoadCell { b.1 with force := e.loadValue } e.tLoadCheck e.tLoadStamp
      else (b.1, [])
    let p := ProcessSensors l.1 e.tSensCheck e.tSensStamp e.position e.speed
    some ⟨⟨p.1, s.rx⟩, s.effects, b.2, l.2, p.2⟩

/-- All calls of one pass of `loop`, in program order. -/
def LoopResult.effects (r : LoopResult) : List Effect :=
  r.serial ++ r.buttons ++ r.load ++ r.sensors

/-- Clock stamps of a run of `loop` over the given environments: for each pass
that writes a streamed load line, and for each pass that polls the sensors, the
reading of `millis()` the pass stored as the limiter's timestamp. `none` means
some pass did not finish. -/
def runStamps : Machine → List LoopEnv → Option (List Nat × List Nat)
  | _, [] => some ([], [])
  | m, e :: es =>
    match loop m e with
    | none => none
    | some r =>
      match runStamps r.m es with
      | none => none
      | some (ls, ss) =>
        some ((if r.load = [] then ls else e.tLoadStamp :: ls),
              (if r.sensors = [] then ss else e.tSensStamp :: ss))

/-- The readings of `millis()` offered to the two limiters, in program order. -/
def clockReadings : List LoopEnv → List Nat
  | [] => []
  | e :: es => e.tLoadCheck :: e.tLoadStamp :: e.tSensCheck :: e.tSensStamp :: clockReadings es

/-! ## The parameter rule in the words of the specification -/

/-- The text after the first space of a line; empty when the line has no
space. -/
def afterFirstSpace (line : List Nat) : List Nat :=
  (line.dropWhile (fun c => c != 32)).drop 1

/-- Whether a text, once its leading white space is skipped, starts with a minus
sign. -/
def isNegative (text : List Nat) : Bool :=
  match text.dropWhile isspace with
  | 45 :: _ => true
  | _ => false

/-- The longest run of decimal digits of a text that follows its leading white
space and one optional sign. -/
def leadingDigits (text : List Nat) : List Nat :=
  match text.dropWhile isspace with
  | 45 :: r => r.takeWhile isdigit
  | 43 :: r => r.takeWhile isdigit
  | r => r.takeWhile isdigit

/-- The number a run of ASCII digits denotes in base 10, most significant digit
first: each digit weighs ten to the number of digits after it. -/
def decimalValue : List Nat → Nat
  | [] => 0
  | c :: cs => (c - 48) * 10 ^ cs.length + decimalValue cs

/-- The base-10 integer parsed from a text: leading white space skipped, optional
sign, longest run of digits, the rest ignored; `0` when there is no digit. -/
def parsedInteger (text : List Nat) : Int :=
  if isNegative text then 0 - (decimalValue (leadingDigits text) : Int)
  else (decimalValue (leadingDigits text) : Int)

/-- The digits of `n` in base 10, least significant first, as ASCII bytes; at
most `fuel` of them. -/
def digitsRev : Nat → Nat → List Nat
  | 0, _ => []
  | fuel + 1, n => if n = 0 then [] else (n % 10 + 48) :: digitsRev fuel (n / 10)

/-- The decimal rendering of a natural number. -/
def natDecimal (n : Nat) : List Nat :=
  if n = 0 then [48] else (digitsRev n n).reverse

/-- The decimal rendering of an integer: a minus sign for a negative one, then
the digits of its magnitude. -/
def decimal (n : Int) : List Nat :=
  if n < 0 then 45 :: natDecimal n.natAbs else natDecimal n.natAbs

/-! ## The tests of the dispatch chain as a function of the line -/

/-- The tests of `conditions`, read off the current line instead of the buffer:
an exact verb holds when the line is the verb, a parameter verb when the line
begins with it. -/
def lineConditions (line : List Nat) : List Bool :=
  [ decide (line = bytes "LoadCellOn"),
    decide (line = bytes "LoadCellOff"),
    decide (line = bytes "SensorsOn"),
    decide (line = bytes "SensorsOff"),
    decide (line = bytes "GetLoad"),
    decide (line = bytes "GetTotalAngle"),
    decide (line = bytes "GetVelocity"),
    decide (line = bytes "GetVersion") || decide (line = bytes "version")
      || decide (line = bytes "v"),
    decide (line = bytes "GetSteps"),
    decide (line = bytes "Enable"),
    decide (line = bytes "Disable"),
    decide (line = bytes "Stop"),
    decide (line = bytes "EStop"),
    decide (line = bytes "Up"),
    decide (line = bytes "Down"),
    decide (line = bytes "Start"),
    decide (bytes "SetSpeed" <+: line),
    decide (bytes "MoveSteps" <+: line),
    decide (bytes "SetRampLength" <+: line) ]

/-! ## Runs of sensor polls -/

/-- Sensor polls in a row: the body of the `if` of `ProcessSensors` run once for
each pair of driver answers (cumulative position, angular speed). -/
def pollAll (g : Globals) : List (Int × ℚ) → Globals
  | [] => g
  | r :: rs => pollAll (pollSensors g r.1 r.2).1 rs

/-- The speed samples the polls push into the window: each driver answer
divided by 6. -/
def samples (rs : List (Int × ℚ)) : List ℚ := rs.map fun r => r.2 / 6

/-! ## Serial bytes delivered during a read -/

/-- The bytes that reach the receive queue during the given ticks, in order. -/
def arrived : List Tick → List Nat
  | [] => []
  | t :: ts => t.arrive ++ arrived ts

/-! ## A sample run -/

/-- One pass of `loop` with a silent serial port, idle buttons, a ready load cell
reading 1234 and a sensor turning at 72 degrees per second, whose four clock
readings are `t`, `t + 1`, `t + 2` and `t + 3`. -/
def quietPass (t : Nat) : LoopEnv where
  arrive := []
  startTime := t
  ticks := []
  stepper := ⟨0, 100⟩
  buttons := ⟨false, false, false, false, true⟩
  loadReady := true
  loadValue := 1234
  tLoadCheck := t
  tLoadStamp := t + 1
  tSensCheck := t + 2
  tSensStamp := t + 3
  position := 0
  speed := 72

/-- The freshly started firmware with load streaming switched on and nothing in
the receive queue. -/
def streamingMachine : Machine := ⟨{ Globals.initial with readLoadCell := true }, []⟩

/-! ## Facts about C strings -/

theorem cstr_nil : cstr [] = [] := rfl

theorem cstr_cons_zero (cs : List Nat) : cstr (0 :: cs) = [] := rfl

theorem cstr_cons_ne {c : Nat} (hc : c ≠ 0) (cs : List Nat) : cstr (c :: cs) = c :: cstr cs := by
  simp [cstr, List.takeWhile_cons, hc]

theorem zero_not_mem_cstr (buf : List Nat) : 0 ∉ cstr buf := by
  intro h
  have := List.mem_takeWhile_imp h
  simp at this

theorem cstr_of_not_mem {l : List Nat} (h : 0 ∉ l) : cstr l = l := by
  unfold cstr
  rw [List.takeWhile_eq_self_iff]
  intro x hx
  have : x ≠ 0 := fun h0 => h (h0 ▸ hx)
  simpa using this

theorem cstr_append_zero {l : List Nat} (h : 0 ∉ l) (rest : List Nat) :
    cstr (l ++ 0 :: rest) = l := by
  induction l with
  | nil => rfl
  | cons c cs ih =>
    have hc : c ≠ 0 := fun h0 => h (by simp [h0])
    have hcs : 0 ∉ cs := fun h0 => h (by simp [h0])
    simp [cstr_cons_ne hc, ih hcs]

theorem cstr_idem (buf : List Nat) : cstr (cstr buf) = cstr buf :=
  cstr_of_not_mem (zero_not_mem_cstr buf)

theorem strncmp_strlen_eq_zero_iff (p a : List Nat) :
    strncmp a p (strlen p) = 0 ↔ cstr p <+: cstr a := by
  induction p generalizing a with
  | nil => simp [strlen, strncmp, cstr_nil]
  | cons d ds ih =>
    by_cases hd : d = 0
    · subst hd
      simp [strlen, strncmp, cstr_cons_zero]
    · rw [cstr_cons_ne hd]
      cases a with
      | nil =>
        simp only [strlen, hd, if_false, strncmp, cstr_nil]
        constructor
        · intro h; omega
        · intro h; simp at h
      | cons c cs =>
        simp only [strlen, hd, if_false, strncmp]
        by_cases hcd : c = d
        · subst hcd
          simp only [ne_eq, not_true_eq_false, if_false, hd, cstr_cons_ne hd]
          rw [ih cs]
          simp [List.cons_prefix_cons]
        · simp only [ne_eq, hcd, not_false_eq_true, if_true]
          constructor
          · intro h; omega
          · intro h
            by_cases hc : c = 0
            · subst hc; simp [cstr_cons_zero] at h
            · rw [cstr_cons_ne hc, List.cons_prefix_cons] at h
              exact absurd h.1.symm hcd

theorem strcmp_eq_zero_iff (a b : List Nat) : strcmp a b = 0 ↔ cstr a = cstr b := by
  induction a generalizing b with
  | nil =>
    cases b with
    | nil => simp [strcmp]
    | cons d ds =>
      by_cases hd : d = 0
      · subst hd; simp [strcmp, cstr_cons_zero, cstr_nil]
      · simp only [strcmp, cstr_nil, cstr_cons_ne hd]
        constructor
        · intro h; omega
        · intro h; simp at h
  | cons c cs ih =>
    cases b with
    | nil =>
      by_cases hc : c = 0
      · subst hc; simp [strcmp, cstr_cons_zero, cstr_nil]
      · simp only [strcmp, cstr_nil, cstr_cons_ne hc]
        constructor
        · intro h; omega
        · intro h; simp at h
    | cons d ds =>
      simp only [strcmp]
      by_cases hcd : c = d
      · subst hcd
        by_cases hc : c = 0
        · subst hc; simp [cstr_cons_zero]
        · simp only [ne_eq, not_true_eq_false, if_false, hc, cstr_cons_ne hc]
          rw [ih ds]
          simp
      · simp only [ne_eq, hcd, not_false_eq_true, if_true]
        constructor
        · intro h; omega
        · intro h
          exfalso
          by_cases hc : c = 0
          · subst hc
            have hd : d ≠ 0 := fun h0 => hcd h0.symm
            simp [cstr_cons_zero, cstr_cons_ne hd] at h
          · by_cases hd : d = 0
            · subst hd; simp [cstr_cons_zero, cstr_cons_ne hc] at h
            · rw [cstr_cons_ne hc, cstr_cons_ne hd] at h
              exact hcd (List.cons.inj h).1

theorem is_iff (buf cmd : List Nat) : is buf cmd = true ↔ cstr buf = cstr cmd := by
  simp [is, strcmp_eq_zero_iff]

theorem startsWith_iff (buf pre : List Nat) :
    startsWith buf pre = true ↔ cstr pre <+: cstr buf := by
  simp [startsWith, strncmp_strlen_eq_zero_iff]

/-! ## Facts about the parameter parser -/

theorem digitLoop_eq (cs : List Nat) (acc : Nat) :
    digitLoop cs acc =
      acc * 10 ^ (cs.takeWhile isdigit).length + decimalValue (cs.takeWhile isdigit) := by
  induction cs generalizing acc with
  | nil => simp [digitLoop, decimalValue]
  | cons c cs ih =>
    by_cases hc : isdigit c = true
    · simp only [digitLoop, hc, if_true, List.takeWhile_cons, decimalValue, List.length_cons]
      rw [ih]
      ring
    · simp [digitLoop, hc, List.takeWhile_cons, decimalValue]

theorem isspace_ne_zero {c : Nat} (h : isspace c = true) : c ≠ 0 := by
  rintro rfl
  simp [isspace] at h

theorem isdigit_ne_zero {c : Nat} (h : isdigit c = true) : c ≠ 0 := by
  rintro rfl
  simp [isdigit] at h

theorem dropWhile_isspace_cstr (s : List Nat) :
    (cstr s).dropWhile isspace = cstr (s.dropWhile isspace) := by
  induction s with
  | nil => rfl
  | cons c cs ih =>
    by_cases hc : isspace c = true
    · rw [cstr_cons_ne (isspace_ne_zero hc)]
      simp [List.dropWhile_cons, hc, ih]
    · by_cases h0 : c = 0
      · subst h0
        simp [cstr_cons_zero, List.dropWhile_cons, hc]
      · rw [cstr_cons_ne h0]
        simp [List.dropWhile_cons, hc, cstr_cons_ne h0]

theorem takeWhile_isdigit_cstr (s : List Nat) :
    (cstr s).takeWhile isdigit = s.takeWhile isdigit := by
  induction s with
  | nil => rfl
  | cons c cs ih =>
    by_cases h0 : c = 0
    · subst h0
      simp [cstr_cons_zero, List.takeWhile_cons, isdigit]
    · rw [cstr_cons_ne h0]
      simp [List.takeWhile_cons, ih]

/-- The value `strtol` computes, in terms of the C string it is given. -/
theorem strtol_eq (s : List Nat) :
    strtol s =
      if isNegative (cstr s) then
        max LONG_MIN (0 - (decimalValue (leadingDigits (cstr s)) : Int))
      else min LONG_MAX (decimalValue (leadingDigits (cstr s)) : Int) := by
  unfold strtol isNegative leadingDigits
  rw [dropWhile_isspace_cstr]
  generalize s.dropWhile isspace = r
  have key : ∀ t : List Nat, (digitLoop t 0 : Int) = (decimalValue ((cstr t).takeWhile isdigit) : Int) := by
    intro t
    rw [takeWhile_isdigit_cstr, digitLoop_eq]
    simp
  cases r with
  | nil => simp [cstr_nil, digitLoop, decimalValue]
  | cons c cs =>
    by_cases h0 : c = 0
    · subst h0
      simp [cstr_cons_zero, digitLoop, decimalValue, isdigit]
    · rw [cstr_cons_ne h0]
      by_cases h45 : c = 45
      · subst h45
        simp [key]
      · by_cases h43 : c = 43
        · subst h43
          simp [key]
        · have hk := key (c :: cs)
          rw [cstr_cons_ne h0] at hk
          split
          · next h => exact absurd (List.cons.inj h).1 h45
          · next h => exact absurd (List.cons.inj h).1 h43
          · next r h1 h2 =>
            split
            · next h => 
              split at h
              · next h3 => exact absurd (List.cons.inj h3).1 h45
              · simp at h
            · next h =>
              rw [hk]
              congr 2
              split
              · next h3 => exact absurd (List.cons.inj h3).1 h45
              · next h3 => exact absurd (List.cons.inj h3).1 h43
              · rfl

theorem findSpaceLoop_take (l : List Nat) (n i : Nat) (h : (cstr l).length < n) :
    findSpaceLoop (l.take n) i =
      if 32 ∈ cstr l then ((i + ((cstr l).takeWhile (fun c => c != 32)).length : Nat) : Int)
      else -1 := by
  induction l generalizing n i with
  | nil => simp [findSpaceLoop, cstr_nil]
  | cons c cs ih =>
    cases n with
    | zero => omega
    | succ m =>
      rw [List.take_succ_cons]
      by_cases h32 : c = 32
      · subst h32
        simp [findSpaceLoop, cstr_cons_ne, List.takeWhile_cons]
      · by_cases h0 : c = 0
        · subst h0
          simp [findSpaceLoop, cstr_cons_zero]
        · rw [cstr_cons_ne h0] at h ⊢
          simp only [List.length_cons] at h
          simp only [findSpaceLoop, h32, h0, if_false]
          rw [ih m (i + 1) (by omega)]
          have hm : (32 ∈ c :: cstr cs) ↔ 32 ∈ cstr cs := by
            simp [List.mem_cons, Ne.symm h32]
          by_cases hmem : 32 ∈ cstr cs
          · simp only [hmem, hm.2 hmem, if_true, List.takeWhile_cons]
            simp [h32]
            omega
          · have : ¬ 32 ∈ c :: cstr cs := fun hh => hmem (hm.1 hh)
            simp only [hmem, this, if_false]

theorem cstr_drop (buf : List Nat) (n : Nat) (h : n ≤ (cstr buf).length) :
    cstr (buf.drop n) = (cstr buf).drop n := by
  induction n generalizing buf with
  | zero => simp
  | succ m ih =>
    cases buf with
    | nil => simp [cstr_nil]
    | cons c cs =>
      by_cases h0 : c = 0
      · subst h0
        simp [cstr_cons_zero] at h
      · rw [cstr_cons_ne h0] at h ⊢
        simp only [List.length_cons] at h
        simp only [List.drop_succ_cons]
        exact ih cs (by omega)

theorem drop_takeWhile_length_succ (line : List Nat) :
    line.drop (((line.takeWhile (fun c => c != 32)).length) + 1) = afterFirstSpace line := by
  unfold afterFirstSpace
  induction line with
  | nil => simp
  | cons c cs ih =>
    by_cases h32 : c = 32
    · subst h32
      simp [List.takeWhile_cons, List.dropWhile_cons]
    · simp only [List.takeWhile_cons, List.dropWhile_cons]
      simp only [bne_iff_ne, ne_eq, h32, not_false_eq_true, decide_True, if_true,
        List.length_cons, List.drop_succ_cons]
      simpa using ih

theorem takeWhile_length_lt_of_mem {line : List Nat} (h : 32 ∈ line) :
    (line.takeWhile (fun c => c != 32)).length < line.length := by
  induction line with
  | nil => simp at h
  | cons c cs ih =>
    by_cases h32 : c = 32
    · subst h32
      simp [List.takeWhile_cons]
    · have : 32 ∈ cs := by
        rcases List.mem_cons.1 h with h1 | h1
        · exact absurd h1.symm h32
        · exact h1
      simp only [List.takeWhile_cons, bne_iff_ne, ne_eq, h32, not_false_eq_true, decide_True,
        if_true, List.length_cons]
      have := ih this
      omega

/-- What `getIntParam` returns, in terms of the current line. -/
theorem getIntParam_eq (buf : List Nat) (h : (cstr buf).length < CMD_BUFFER_SIZE) :
    getIntParam buf =
      if 32 ∈ cstr buf then
        (if isNegative (afterFirstSpace (cstr buf)) then
          max LONG_MIN (0 - (decimalValue (leadingDigits (afterFirstSpace (cstr buf))) : Int))
        else min LONG_MAX (decimalValue (leadingDigits (afterFirstSpace (cstr buf))) : Int))
      else 0 := by
  unfold getIntParam findSpace
  rw [findSpaceLoop_take buf CMD_BUFFER_SIZE 0 h]
  by_cases hmem : 32 ∈ cstr buf
  · simp only [hmem, if_true]
    have hk := takeWhile_length_lt_of_mem hmem
    have hneg : ¬ (((0 + ((cstr buf).takeWhile (fun c => c != 32)).length : Nat) : Int) < 0) := by
      omega
    simp only [hneg, if_false]
    have hidx : (((0 + ((cstr buf).takeWhile (fun c => c != 32)).length : Nat) : Int) + 1).toNat
        = ((cstr buf).takeWhile (fun c => c != 32)).length + 1 := by
      omega
    rw [hidx]
    unfold atoi
    rw [strtol_eq, cstr_drop buf _ (by omega), drop_takeWhile_length_succ]
  · simp [hmem]

theorem getLongParam_eq_getIntParam (buf : List Nat) : getLongParam buf = getIntParam buf := rfl

theorem parsedInteger_of_no_digits {text : List Nat} (h : leadingDigits text = []) :
    parsedInteger text = 0 := by
  simp [parsedInteger, h, decimalValue]

theorem getIntParam_in_range (buf : List Nat) (h : (cstr buf).length < CMD_BUFFER_SIZE)
    (hmem : 32 ∈ cstr buf)
    (hlo : LONG_MIN ≤ parsedInteger (afterFirstSpace (cstr buf)))
    (hhi : parsedInteger (afterFirstSpace (cstr buf)) ≤ LONG_MAX) :
    getIntParam buf = parsedInteger (afterFirstSpace (cstr buf)) := by
  rw [getIntParam_eq buf h]
  simp only [hmem, if_true]
  unfold parsedInteger at hlo hhi ⊢
  by_cases hn : isNegative (afterFirstSpace (cstr buf)) = true
  · simp only [hn, if_true] at hlo hhi ⊢
    exact max_eq_right hlo
  · simp only [hn] at hlo hhi ⊢
    simp only [Bool.false_eq_true, if_false] at hlo hhi ⊢
    exact min_eq_right hhi

/-! ## Facts about the dispatch chain -/

theorem is_eq_decide (buf : List Nat) (v : String) :
    is buf (bytes v) = decide (cstr buf = cstr (bytes v)) := by
  rw [Bool.eq_iff_iff, is_iff]
  simp

theorem startsWith_eq_decide (buf : List Nat) (v : String) :
    startsWith buf (bytes v) = decide (cstr (bytes v) <+: cstr buf) := by
  rw [Bool.eq_iff_iff, startsWith_iff]
  simp

theorem conditions_eq_lineConditions (buf : List Nat) :
    conditions buf = lineConditions (cstr buf) := by
  unfold conditions lineConditions
  simp only [is_eq_decide, startsWith_eq_decide]
  have e : ∀ v : String, 0 ∉ bytes v → cstr (bytes v) = bytes v := fun v hv => cstr_of_not_mem hv
  rw [e "LoadCellOn" (by decide), e "LoadCellOff" (by decide), e "SensorsOn" (by decide),
    e "SensorsOff" (by decide), e "GetLoad" (by decide), e "GetTotalAngle" (by decide),
    e "GetVelocity" (by decide), e "GetVersion" (by decide), e "version" (by decide),
    e "v" (by decide), e "GetSteps" (by decide), e "Enable" (by decide), e "Disable" (by decide),
    e "Stop" (by decide), e "EStop" (by decide), e "Up" (by decide), e "Down" (by decide),
    e "Start" (by decide), e "SetSpeed" (by decide), e "MoveSteps" (by decide),
    e "SetRampLength" (by decide)]

theorem dispatch_eq_firstMatch (g : Globals) (st : StepperReplies) :
    dispatch g st = firstMatch (g, []) ((conditions g.cmdBuffer).zip (handlers g st)) := rfl

theorem dispatch_Stop (g : Globals) (st : StepperReplies) (h : cstr g.cmdBuffer = bytes "Stop") :
    dispatch g st = (g, [.rotate 0]) := by
  rw [dispatch_eq_firstMatch, conditions_eq_lineConditions, h]
  have e : lineConditions (bytes "Stop") =
      [false, false, false, false, false, false, false, false, false, false, false, true,
       false, false, false, false, false, false, false] := by decide
  rw [e]
  rfl

theorem lineConditions_count (line : List Nat) : (lineConditions line).count true ≤ 1 := by
  have hex : ∀ v ∈ [bytes "LoadCellOn", bytes "LoadCellOff", bytes "SensorsOn",
      bytes "SensorsOff", bytes "GetLoad", bytes "GetTotalAngle", bytes "GetVelocity",
      bytes "GetVersion", bytes "version", bytes "v", bytes "GetSteps", bytes "Enable",
      bytes "Disable", bytes "Stop", bytes "EStop", bytes "Up", bytes "Down", bytes "Start"],
      (lineConditions v).count true ≤ 1 := by decide
  by_cases hmem : line ∈ [bytes "LoadCellOn", bytes "LoadCellOff", bytes "SensorsOn",
      bytes "SensorsOff", bytes "GetLoad", bytes "GetTotalAngle", bytes "GetVelocity",
      bytes "GetVersion", bytes "version", bytes "v", bytes "GetSteps", bytes "Enable",
      bytes "Disable", bytes "Stop", bytes "EStop", bytes "Up", bytes "Down", bytes "Start"]
  · exact hex line hmem
  · simp only [List.mem_cons, List.mem_singleton, not_or, List.not_mem_nil, or_false] at hmem
    obtain ⟨h1, h2, h3, h4, h5, h6, h7, h8, h9, h10, h11, h12, h13, h14, h15, h16, h17, h18⟩ :=
      hmem
    have p12 : bytes "SetSpeed" <+: line → bytes "MoveSteps" <+: line → False := by
      intro a b
      rcases List.prefix_or_prefix_of_prefix a b with h | h <;> revert h <;> decide
    have p13 : bytes "SetSpeed" <+: line → bytes "SetRampLength" <+: line → False := by
      intro a b
      rcases List.prefix_or_prefix_of_prefix a b with h | h <;> revert h <;> decide
    have p23 : bytes "MoveSteps" <+: line → bytes "SetRampLength" <+: line → False := by
      intro a b
      rcases List.prefix_or_prefix_of_prefix a b with h | h <;> revert h <;> decide
    simp only [lineConditions, h1, h2, h3, h4, h5, h6, h7, h8, h9, h10, h11, h12, h13, h14, h15,
      h16, h17, h18, decide_False, Bool.or_false]
    by_cases a : bytes "SetSpeed" <+: line <;> by_cases b : bytes "MoveSteps" <+: line <;>
      by_cases c : bytes "SetRampLength" <+: line <;>
      first
      | exact absurd (p12 a b) id
      | exact absurd (p13 a c) id
      | exact absurd (p23 b c) id
      | simp [a, b, c]

theorem firstMatch_of_mem {α : Type} (d h : α) (l : List (Bool × α))
    (hc : (l.map Prod.fst).count true ≤ 1) (hm : (true, h) ∈ l) : firstMatch d l = h := by
  induction l with
  | nil => simp at hm
  | cons x xs ih =>
    obtain ⟨c, h'⟩ := x
    cases c with
    | true =>
      simp only [firstMatch, if_true]
      rcases List.mem_cons.1 hm with e | e
      · exact (Prod.mk.inj e).2.symm
      · exfalso
        have : 0 < (xs.map Prod.fst).count true := by
          apply List.count_pos_iff.2
          exact List.mem_map.2 ⟨(true, h), e, rfl⟩
        simp only [List.map_cons, List.count_cons_self] at hc
        omega
    | false =>
      simp only [firstMatch, Bool.false_eq_true, if_false]
      rcases List.mem_cons.1 hm with e | e
      · exact absurd (Prod.mk.inj e).1 (by simp)
      · apply ih _ e
        simpa using hc

theorem firstMatch_of_not_mem {α : Type} (d : α) (l : List (Bool × α))
    (hm : ∀ h, (true, h) ∉ l) : firstMatch d l = d := by
  induction l with
  | nil => rfl
  | cons x xs ih =>
    obtain ⟨c, h'⟩ := x
    cases c with
    | true => exact absurd (List.mem_cons_self _ _) (hm h')
    | false =>
      simp only [firstMatch, Bool.false_eq_true, if_false]
      exact ih fun h hh => hm h (List.mem_cons_of_mem _ hh)

theorem firstMatch_perm {α : Type} (d : α) {l l' : List (Bool × α)} (hp : l'.Perm l)
    (hc : (l.map Prod.fst).count true ≤ 1) : firstMatch d l' = firstMatch d l := by
  have hc' : (l'.map Prod.fst).count true ≤ 1 := by
    rw [(hp.map Prod.fst).count_eq]
    exact hc
  by_cases hm : ∃ h, (true, h) ∈ l
  · obtain ⟨h, hh⟩ := hm
    rw [firstMatch_of_mem d h l hc hh, firstMatch_of_mem d h l' hc' (hp.mem_iff.2 hh)]
  · have hn : ∀ h, (true, h) ∉ l := fun h hh => hm ⟨h, hh⟩
    rw [firstMatch_of_not_mem d l hn,
      firstMatch_of_not_mem d l' fun h hh => hn h (hp.mem_iff.1 hh)]

theorem map_fst_zip_conditions (g : Globals) (st : StepperReplies) :
    ((conditions g.cmdBuffer).zip (handlers g st)).map Prod.fst = conditions g.cmdBuffer := by
  apply List.map_fst_zip
  simp [conditions, handlers]

/-! ## Decimal renderings are read back by the parser -/

theorem digitsRev_isdigit (fuel n : Nat) : ∀ c ∈ digitsRev fuel n, isdigit c = true := by
  induction fuel generalizing n with
  | zero => simp [digitsRev]
  | succ f ih =>
    intro c hc
    unfold digitsRev at hc
    split at hc
    · simp at hc
    · rcases List.mem_cons.1 hc with e | e
      · subst e
        have : n % 10 < 10 := Nat.mod_lt _ (by decide)
        simp [isdigit]
        omega
      · exact ih _ c e

theorem decimalValue_append_singleton (l : List Nat) (c : Nat) :
    decimalValue (l ++ [c]) = decimalValue l * 10 + (c - 48) := by
  induction l with
  | nil => simp [decimalValue]
  | cons d ds ih =>
    have e : (d :: ds) ++ [c] = d :: (ds ++ [c]) := rfl
    rw [e]
    simp only [decimalValue, ih, List.length_append, List.length_singleton]
    ring

theorem decimalValue_digitsRev (fuel n : Nat) (h : n ≤ fuel) :
    decimalValue (digitsRev fuel n).reverse = n := by
  induction fuel generalizing n with
  | zero =>
    have : n = 0 := by omega
    subst this
    simp [digitsRev, decimalValue]
  | succ f ih =>
    unfold digitsRev
    split
    · next h0 => simp [decimalValue, h0]
    · next h0 =>
      rw [List.reverse_cons, decimalValue_append_singleton, ih (n / 10) (by omega)]
      omega

theorem digitsRev_length (k fuel n : Nat) (h : n < 10 ^ k) : (digitsRev fuel n).length ≤ k := by
  induction k generalizing fuel n with
  | zero =>
    have : n = 0 := by simpa using h
    subst this
    cases fuel <;> simp [digitsRev]
  | succ k ih =>
    cases fuel with
    | zero => simp [digitsRev]
    | succ f =>
      unfold digitsRev
      split
      · simp
      · have : n / 10 < 10 ^ k := by
          rw [Nat.div_lt_iff_lt_mul (by decide)]
          rw [pow_succ] at h
          exact h
        have := ih f (n / 10) this
        simp only [List.length_cons]
        omega

theorem digitsRev_ne_nil {fuel n : Nat} (h0 : n ≠ 0) (hf : fuel ≠ 0) : digitsRev fuel n ≠ [] := by
  cases fuel with
  | zero => exact absurd rfl hf
  | succ f => simp [digitsRev, h0]

theorem natDecimal_isdigit (n : Nat) : ∀ c ∈ natDecimal n, isdigit c = true := by
  intro c hc
  unfold natDecimal at hc
  split at hc
  · simp at hc
    subst hc
    decide
  · exact digitsRev_isdigit n n c (List.mem_reverse.1 hc)

theorem natDecimal_ne_nil (n : Nat) : natDecimal n ≠ [] := by
  unfold natDecimal
  split
  · simp
  · next h0 =>
    intro h
    exact digitsRev_ne_nil h0 h0 (List.reverse_eq_nil_iff.1 h)

theorem decimalValue_natDecimal (n : Nat) : decimalValue (natDecimal n) = n := by
  unfold natDecimal
  split
  · next h0 => subst h0; rfl
  · exact decimalValue_digitsRev n n le_rfl

theorem natDecimal_length (n : Nat) (h : n < 10 ^ 10) : (natDecimal n).length ≤ 10 := by
  unfold natDecimal
  split
  · simp
  · rw [List.length_reverse]
    exact digitsRev_length 10 n n h

theorem takeWhile_isdigit_natDecimal (n : Nat) :
    (natDecimal n).takeWhile isdigit = natDecimal n := by
  rw [List.takeWhile_eq_self_iff]
  exact natDecimal_isdigit n

theorem dropWhile_isspace_natDecimal (n : Nat) :
    (natDecimal n).dropWhile isspace = natDecimal n := by
  have hne := natDecimal_ne_nil n
  have hd := natDecimal_isdigit n
  cases hl : natDecimal n with
  | nil => exact absurd hl hne
  | cons c cs =>
    have hc : isdigit c = true := hd c (by simp [hl])
    have : isspace c = false := by
      simp only [isdigit, Bool.and_eq_true, decide_eq_true_eq] at hc
      simp [isspace]
      omega
    simp [List.dropWhile_cons, this]

theorem leadingDigits_natDecimal (n : Nat) : leadingDigits (natDecimal n) = natDecimal n := by
  unfold leadingDigits
  rw [dropWhile_isspace_natDecimal]
  have hd := natDecimal_isdigit n
  have ht := takeWhile_isdigit_natDecimal n
  split
  · next r h =>
    have := hd 45 (by simp [h])
    simp [isdigit] at this
  · next r h =>
    have := hd 43 (by simp [h])
    simp [isdigit] at this
  · exact ht

theorem isNegative_natDecimal (n : Nat) : isNegative (natDecimal n) = false := by
  unfold isNegative
  rw [dropWhile_isspace_natDecimal]
  have hd := natDecimal_isdigit n
  split
  · next r h =>
    have := hd 45 (by simp [h])
    simp [isdigit] at this
  · rfl

theorem parsedInteger_decimal (n : Int) : parsedInteger (decimal n) = n := by
  unfold decimal
  by_cases hn : n < 0
  · simp only [hn, if_true]
    have e1 : isNegative (45 :: natDecimal n.natAbs) = true := by
      simp [isNegative, List.dropWhile_cons, isspace]
    have e2 : leadingDigits (45 :: natDecimal n.natAbs) = natDecimal n.natAbs := by
      simp [leadingDigits, List.dropWhile_cons, isspace, takeWhile_isdigit_natDecimal]
    simp only [parsedInteger, e1, e2, if_true, decimalValue_natDecimal]
    omega
  · simp only [hn, if_false]
    simp only [parsedInteger, isNegative_natDecimal, leadingDigits_natDecimal,
      decimalValue_natDecimal, Bool.false_eq_true, if_false]
    omega

theorem decimal_mem_cases (n : Int) : ∀ c ∈ decimal n, c = 45 ∨ isdigit c = true := by
  intro c hc
  unfold decimal at hc
  split at hc
  · rcases List.mem_cons.1 hc with e | e
    · exact Or.inl e
    · exact Or.inr (natDecimal_isdigit _ c e)
  · exact Or.inr (natDecimal_isdigit _ c hc)

theorem zero_not_mem_decimal (n : Int) : 0 ∉ decimal n := by
  intro h
  rcases decimal_mem_cases n 0 h with e | e
  · exact absurd e (by decide)
  · simp [isdigit] at e

theorem decimal_length (n : Int) (hlo : LONG_MIN ≤ n) (hhi : n ≤ LONG_MAX) :
    (decimal n).length ≤ 11 := by
  have hb : n.natAbs < 10 ^ 10 := by
    unfold LONG_MIN at hlo
    unfold LONG_MAX at hhi
    have : (10 : Nat) ^ 10 = 10000000000 := by norm_num
    omega
  have := natDecimal_length n.natAbs hb
  unfold decimal
  split
  · simp only [List.length_cons]; omega
  · omega

theorem afterFirstSpace_append (w d : List Nat) (hw : 32 ∉ w) :
    afterFirstSpace (w ++ 32 :: d) = d := by
  unfold afterFirstSpace
  induction w with
  | nil => simp [List.dropWhile_cons]
  | cons c cs ih =>
    have hc : c ≠ 32 := fun h => hw (by simp [h])
    have hcs : 32 ∉ cs := fun h => hw (by simp [h])
    simp only [List.cons_append, List.dropWhile_cons, bne_iff_ne, ne_eq, hc, not_false_eq_true,
      decide_True, if_true]
    simpa using ih hcs

/-- A line made of a verb, one space and the decimal rendering of a number in
range is read back as that number. -/
theorem getIntParam_verb_decimal (buf w : List Nat) (n : Int) (hw : 32 ∉ w)
    (hlen : w.length ≤ 50) (hlo : LONG_MIN ≤ n) (hhi : n ≤ LONG_MAX)
    (h : cstr buf = w ++ 32 :: decimal n) : getIntParam buf = n := by
  have hl : (cstr buf).length < CMD_BUFFER_SIZE := by
    have := decimal_length n hlo hhi
    rw [h]
    simp only [List.length_append, List.length_cons, CMD_BUFFER_SIZE]
    omega
  have hmem : 32 ∈ cstr buf := by rw [h]; simp
  have ha : afterFirstSpace (cstr buf) = decimal n := by rw [h, afterFirstSpace_append w _ hw]
  rw [getIntParam_in_range buf hl hmem, ha, parsedInteger_decimal]
  · rw [ha, parsedInteger_decimal]; exact hlo
  · rw [ha, parsedInteger_decimal]; exact hhi

/-! ## Facts about single-precision rounding -/

theorem roundHalfEven_error (y : ℚ) : |(roundHalfEven y : ℚ) - y| ≤ 1 / 2 := by
  have h1 : (⌊y⌋ : ℚ) ≤ y := Int.floor_le y
  have h2 : y < (⌊y⌋ : ℚ) + 1 := Int.lt_floor_add_one y
  unfold roundHalfEven
  split_ifs with a b c
  · rw [abs_le]; constructor <;> linarith
  · push_cast; rw [abs_le]; constructor <;> linarith
  · rw [abs_le]; constructor <;> linarith
  · push_cast; rw [abs_le]; constructor <;> linarith

theorem roundHalfEven_eq (y : ℚ) (z : Int) (h : |y - z| < 1 / 2) : roundHalfEven y = z := by
  have h1 := roundHalfEven_error y
  rw [abs_lt] at h
  rw [abs_le] at h1
  have h2 : ((roundHalfEven y - z : Int) : ℚ) < 1 := by push_cast; linarith
  have h3 : (-1 : ℚ) < ((roundHalfEven y - z : Int) : ℚ) := by push_cast; linarith
  have h4 : roundHalfEven y - z < 1 := by exact_mod_cast h2
  have h5 : -1 < roundHalfEven y - z := by exact_mod_cast h3
  omega

theorem roundHalfEven_intCast (z : Int) : roundHalfEven (z : ℚ) = z :=
  roundHalfEven_eq _ z (by simp)

theorem binade_eq_log {x : ℚ} (hx : (2 : ℚ) ^ (-126 : Int) ≤ |x|) : binade x = Int.log 2 |x| := by
  have hpos : 0 < |x| := lt_of_lt_of_le (by positivity) hx
  have : (-126 : Int) ≤ Int.log 2 |x| := by
    rw [← Int.zpow_le_iff_le_log (by norm_num) hpos]
    exact_mod_cast hx
  unfold binade
  exact max_eq_left this

theorem zpow_binade_le {x : ℚ} (hx : (2 : ℚ) ^ (-126 : Int) ≤ |x|) :
    (2 : ℚ) ^ binade x ≤ |x| := by
  have hpos : 0 < |x| := lt_of_lt_of_le (by positivity) hx
  rw [binade_eq_log hx]
  exact_mod_cast Int.zpow_log_le_self (b := 2) (by norm_num) hpos

theorem binade_eq {x : ℚ} (e : Int) (h1 : (2 : ℚ) ^ e ≤ |x|) (h2 : |x| < (2 : ℚ) ^ (e + 1))
    (h3 : -126 ≤ e) : binade x = e := by
  have hpos : 0 < |x| := lt_of_lt_of_le (by positivity) h1
  have a : e ≤ Int.log 2 |x| := by
    rw [← Int.zpow_le_iff_le_log (by norm_num) hpos]
    exact_mod_cast h1
  have b : Int.log 2 |x| < e + 1 := by
    rw [← Int.lt_zpow_iff_log_lt (by norm_num) hpos]
    exact_mod_cast h2
  unfold binade
  rw [max_eq_left (by omega)]
  omega

theorem f32_error {x : ℚ} (hx : (2 : ℚ) ^ (-126 : Int) ≤ |x|) :
    |f32 x - x| ≤ |x| / 2 ^ 24 := by
  have hle := zpow_binade_le hx
  have hu : (0 : ℚ) < 2 ^ (binade x - 23) := by positivity
  have herr := roundHalfEven_error (x / 2 ^ (binade x - 23))
  have e1 : f32 x - x =
      ((roundHalfEven (x / 2 ^ (binade x - 23)) : ℚ) - x / 2 ^ (binade x - 23))
        * 2 ^ (binade x - 23) := by
    unfold f32
    field_simp
  have e2 : (2 : ℚ) ^ (binade x - 23) = 2 ^ binade x / 2 ^ 23 := by
    rw [zpow_sub₀ (by norm_num)]
    norm_num
  rw [e1, abs_mul, abs_of_pos hu]
  calc |(roundHalfEven (x / 2 ^ (binade x - 23)) : ℚ) - x / 2 ^ (binade x - 23)|
          * 2 ^ (binade x - 23)
        ≤ 1 / 2 * 2 ^ (binade x - 23) := by
          exact mul_le_mul_of_nonneg_right herr hu.le
    _ = 2 ^ binade x / 2 ^ 24 := by rw [e2]; ring
    _ ≤ |x| / 2 ^ 24 := by
          apply div_le_div_of_nonneg_right hle
          positivity

theorem f32_of_scaled_int {x : ℚ} (z : Int) (h : x / 2 ^ (binade x - 23) = z) : f32 x = x := by
  have hu : (2 : ℚ) ^ (binade x - 23) ≠ 0 := by positivity
  unfold f32
  rw [h, roundHalfEven_intCast, ← h]
  field_simp

theorem f32_zero : f32 0 = 0 := by
  apply f32_of_scaled_int 0
  simp

theorem f32_intCast (m : Int) (hm : |m| ≤ 2 ^ 24) : f32 (m : ℚ) = m := by
  by_cases h0 : m = 0
  · subst h0
    simpa using f32_zero
  · have habs : (1 : ℚ) ≤ |(m : ℚ)| := by
      have : 1 ≤ |m| := Int.one_le_abs h0
      exact_mod_cast this
    have hx : (2 : ℚ) ^ (-126 : Int) ≤ |(m : ℚ)| := by
      refine le_trans ?_ habs
      rw [zpow_neg]
      apply inv_le_one_of_one_le₀
      exact one_le_zpow₀ (by norm_num) (by norm_num)
    have hle := zpow_binade_le hx
    have hub : |(m : ℚ)| ≤ 16777216 := by
      have : ((|m| : Int) : ℚ) ≤ ((2 ^ 24 : Int) : ℚ) := by exact_mod_cast hm
      rw [Int.cast_abs] at this
      norm_num at this
      exact this
    have p24 : (2 : ℚ) ^ (24 : Int) = 16777216 := by norm_num
    have he24 : binade (m : ℚ) ≤ 24 := by
      have := le_trans hle hub
      rw [← p24] at this
      exact (zpow_le_zpow_iff_right₀ (by norm_num : (1 : ℚ) < 2)).1 this
    rcases lt_or_eq_of_le he24 with hlt | heq
    · have hk : 0 ≤ 23 - binade (m : ℚ) := by omega
      apply f32_of_scaled_int (m * 2 ^ (23 - binade (m : ℚ)).toNat)
      have e1 : (2 : ℚ) ^ (binade (m : ℚ) - 23) = ((2 : ℚ) ^ (23 - binade (m : ℚ)).toNat)⁻¹ := by
        rw [← zpow_natCast, Int.toNat_of_nonneg hk, ← zpow_neg]
        congr 1
        omega
      rw [e1]
      push_cast
      field_simp
    · have hmabs : |(m : ℚ)| = 16777216 := by
        apply le_antisymm hub
        rw [heq, p24] at hle
        exact hle
      rcases abs_eq (by norm_num : (0 : ℚ) ≤ 16777216) |>.1 hmabs with h | h
      · apply f32_of_scaled_int (2 ^ 23)
        rw [heq, h]
        norm_num
      · apply f32_of_scaled_int (-2 ^ 23)
        rw [heq, h]
        norm_num

/-- The echo `(float)n / 10` of a speed that is a multiple of 10 of magnitude at
most `2 ^ 24` is exactly `n / 10`. -/
theorem echo_exact (n : Int) (hn : |n| ≤ 2 ^ 24) (hd : 10 ∣ n) :
    floatDiv (floatOfInt n) 10 = (n : ℚ) / 10 := by
  obtain ⟨k, rfl⟩ := hd
  have hk : |k| ≤ 2 ^ 24 := by
    rw [abs_mul] at hn
    have : |k| ≤ |(10 : Int)| * |k| := by
      have h10 : |(10 : Int)| = 10 := by norm_num
      rw [h10]
      have := abs_nonneg k
      omega
    omega
  unfold floatDiv floatOfInt
  rw [f32_intCast _ hn]
  have e : ((10 * k : Int) : ℚ) / 10 = (k : ℚ) := by
    push_cast
    field_simp
  rw [e, f32_intCast _ hk]

/-- The echo `(float)n / 10` differs from `n / 10` by at most two roundings. -/
theorem echo_error (n : Int) : |floatDiv (floatOfInt n) 10 - (n : ℚ) / 10| ≤ |(n : ℚ) / 10| / 2 ^ 22 := by
  by_cases h0 : n = 0
  · subst h0
    unfold floatDiv floatOfInt
    simp [f32_zero]
  · have habs : (1 : ℚ) ≤ |(n : ℚ)| := by
      have : 1 ≤ |n| := Int.one_le_abs h0
      exact_mod_cast this
    have hsmall : (2 : ℚ) ^ (-126 : Int) ≤ 1 / 20 := by
      rw [zpow_neg, ← one_div]
      apply one_div_le_one_div_of_le (by norm_num)
      norm_num
    have hx : (2 : ℚ) ^ (-126 : Int) ≤ |(n : ℚ)| :=
      le_trans hsmall (le_trans (by norm_num) habs)
    have h1 := f32_error hx
    have hn1 : |f32 (n : ℚ)| ≥ |(n : ℚ)| / 2 := by
      have := abs_sub_abs_le_abs_sub (n : ℚ) (f32 (n : ℚ))
      rw [abs_sub_comm] at this
      have h24 : |(n : ℚ)| / 2 ^ 24 ≤ |(n : ℚ)| / 2 := by
        apply div_le_div_of_nonneg_left (abs_nonneg _) (by norm_num) (by norm_num)
      linarith
    have hn2 : |f32 (n : ℚ)| ≤ 2 * |(n : ℚ)| := by
      have := abs_sub_abs_le_abs_sub (f32 (n : ℚ)) (n : ℚ)
      have h24 : |(n : ℚ)| / 2 ^ 24 ≤ |(n : ℚ)| := by
        apply div_le_self (abs_nonneg _)
        norm_num
      linarith
    have hx2 : (2 : ℚ) ^ (-126 : Int) ≤ |f32 (n : ℚ) / 10| := by
      rw [abs_div]
      have : |(10 : ℚ)| = 10 := by norm_num
      rw [this]
      have : |(n : ℚ)| / 2 / 10 ≤ |f32 (n : ℚ)| / 10 := by
        apply div_le_div_of_nonneg_right hn1 (by norm_num)
      have h20 : (1 : ℚ) / 20 ≤ |(n : ℚ)| / 2 / 10 := by linarith
      exact le_trans hsmall (le_trans h20 this)
    have h2 := f32_error hx2
    unfold floatDiv floatOfInt
    have e : f32 (f32 (n : ℚ) / 10) - (n : ℚ) / 10 =
        (f32 (f32 (n : ℚ) / 10) - f32 (n : ℚ) / 10) + (f32 (n : ℚ) - n) / 10 := by ring
    rw [e]
    have t1 := abs_add (f32 (f32 (n : ℚ) / 10) - f32 (n : ℚ) / 10) ((f32 (n : ℚ) - n) / 10)
    have t2 : |(f32 (n : ℚ) - n) / 10| = |f32 (n : ℚ) - n| / 10 := by
      rw [abs_div]; norm_num
    have t3 : |f32 (n : ℚ) / 10| = |f32 (n : ℚ)| / 10 := by
      rw [abs_div]; norm_num
    have t4 : |(n : ℚ) / 10| = |(n : ℚ)| / 10 := by
      rw [abs_div]; norm_num
    rw [t3] at h2
    rw [t2] at t1
    rw [t4]
    have hnn := abs_nonneg (n : ℚ)
    have p24 : (2 : ℚ) ^ 24 = 16777216 := by norm_num
    have p22 : (2 : ℚ) ^ 22 = 4194304 := by norm_num
    rw [p24] at h1 h2
    rw [p22]
    have b1 : |f32 (n : ℚ)| / 10 / 16777216 ≤ 2 * |(n : ℚ)| / 10 / 16777216 := by
      apply div_le_div_of_nonneg_right _ (by norm_num)
      apply div_le_div_of_nonneg_right hn2 (by norm_num)
    have b2 : |f32 (n : ℚ) - n| / 10 ≤ |(n : ℚ)| / 16777216 / 10 := by
      apply div_le_div_of_nonneg_right h1 (by norm_num)
    have b3 : 2 * |(n : ℚ)| / 10 / 16777216 + |(n : ℚ)| / 16777216 / 10
        ≤ |(n : ℚ)| / 10 / 4194304 := by
      have : 2 * |(n : ℚ)| / 10 / 16777216 + |(n : ℚ)| / 16777216 / 10
          = |(n : ℚ)| * (3 / 167772160) := by ring
      rw [this]
      have : |(n : ℚ)| / 10 / 4194304 = |(n : ℚ)| * (1 / 41943040) := by ring
      rw [this]
      apply mul_le_mul_of_nonneg_left _ hnn
      norm_num
    linarith

/-- The value of `f32` at `x`, once the exponent of `x` and the nearest
multiple of the unit in the last place are known. -/
theorem f32_eval (x : ℚ) (e z : Int) (h1 : (2 : ℚ) ^ e ≤ |x|) (h2 : |x| < (2 : ℚ) ^ (e + 1))
    (h3 : -126 ≤ e) (h4 : |x / 2 ^ (e - 23) - z| < 1 / 2) : f32 x = z * 2 ^ (e - 23) := by
  unfold f32
  rw [binade_eq e h1 h2 h3, roundHalfEven_eq _ z h4]

theorem echo_INT_MAX : floatDiv (floatOfInt 2147483647) 10 = 214748368 := by
  unfold floatDiv floatOfInt
  have a : f32 ((2147483647 : Int) : ℚ) = 2147483648 := by
    rw [f32_eval _ 30 16777216 (by norm_num) (by norm_num) (by norm_num)
      (by norm_num [abs_lt])]
    norm_num
  rw [a, f32_eval _ 27 13421773 (by norm_num [abs_of_pos]) (by norm_num [abs_of_pos])
    (by norm_num) (by norm_num [abs_lt])]
  norm_num

theorem echo_500 : floatDiv (floatOfInt 500) 10 = 50 := by
  rw [echo_exact 500 (by norm_num) (by norm_num)]
  norm_num

theorem conditions_count (buf : List Nat) : (conditions buf).count true ≤ 1 := by
  rw [conditions_eq_lineConditions]
  exact lineConditions_count _

theorem dispatch_of_mem (g : Globals) (st : StepperReplies) (h : Globals × List Effect)
    (hm : (true, h) ∈ (conditions g.cmdBuffer).zip (handlers g st)) : dispatch g st = h := by
  rw [dispatch_eq_firstMatch]
  apply firstMatch_of_mem _ _ _ _ hm
  rw [map_fst_zip_conditions]
  exact conditions_count _

theorem dispatch_SetSpeed (g : Globals) (st : StepperReplies)
    (h : startsWith g.cmdBuffer (bytes "SetSpeed") = true) :
    dispatch g st =
      (g, [.print "Setting speed: ",
           .printFloat (floatDiv (floatOfInt (getIntParam g.cmdBuffer)) 10),
           .println " RPM", .setSpeed (getIntParam g.cmdBuffer)]) := by
  apply dispatch_of_mem
  simp [conditions, handlers, h]

theorem dispatch_MoveSteps (g : Globals) (st : StepperReplies)
    (h : startsWith g.cmdBuffer (bytes "MoveSteps") = true) :
    dispatch g st =
      (g, [.print "Moving: ", .printInt (getLongParam g.cmdBuffer), .println " steps.",
           .move (getLongParam g.cmdBuffer)]) := by
  apply dispatch_of_mem
  simp [conditions, handlers, h]

theorem startsWith_of_line (buf : List Nat) (v : String) (rest : List Nat)
    (h0 : 0 ∉ bytes v) (h : cstr buf = bytes v ++ rest) : startsWith buf (bytes v) = true := by
  rw [startsWith_iff, cstr_of_not_mem h0, h]
  exact List.prefix_append _ _

/-! ## Claims -/

/-- C7: `startsWith(prefix)` is true exactly when the current line begins with
the prefix, compared byte by byte over the length of the prefix; so it is false
for a line shorter than the prefix, true of the prefix `SetSpeed` for the lines
`SetSpeed`, `SetSpeed 50` and `SetSpeed50`, and false for `setspeed 50`. -/
theorem startsWith_spec (cmdBuffer pre : List Nat) :
    (startsWith cmdBuffer pre = true ↔ cstr pre <+: cstr cmdBuffer) ∧
    ((cstr cmdBuffer).length < (cstr pre).length → startsWith cmdBuffer pre = false) ∧
    startsWith (bytes "SetSpeed") (bytes "SetSpeed") = true ∧
    startsWith (bytes "SetSpeed 50") (bytes "SetSpeed") = true ∧
    startsWith (bytes "SetSpeed50") (bytes "SetSpeed") = true ∧
    startsWith (bytes "setspeed 50") (bytes "SetSpeed") = false := by
  refine ⟨startsWith_iff _ _, ?_, by decide, by decide, by decide, by decide⟩
  intro hlt
  rw [Bool.eq_false_iff]
  intro h
  have := ((startsWith_iff _ _).1 h).length_le
  omega

/-- Witness of C7: a 12-slot buffer holding `SetSp`, a NUL and stale bytes is
shorter than the prefix `SetSpeed`, and `startsWith` rejects it. -/
theorem startsWith_spec_witness :
    (cstr (bytes "SetSp" ++ [0, 101, 101, 100, 32, 53, 48])).length
        < (cstr (bytes "SetSpeed")).length ∧
      startsWith (bytes "SetSp" ++ [0, 101, 101, 100, 32, 53, 48]) (bytes "SetSpeed") = false :=
  ⟨by decide, (startsWith_spec _ _).2.1 (by decide)⟩

/-- C2 (amended): for every current line that fits the command buffer,
`getLongParam` returns what `getIntParam` returns; `getIntParam` returns 0 when the
line has no space; when the line has a space and the base-10 integer parsed from
the text after the first space (white space skipped, optional sign, longest run
of digits, the rest ignored) fits the 32-bit return type, it returns that
integer; it returns 0 when that text has no leading digits. `SetSpeed 50` gives
50, `SetSpeed` gives 0, `SetSpeed   50` gives 50. -/
theorem getIntParam_spec (cmdBuffer : List Nat)
    (h : (cstr cmdBuffer).length < CMD_BUFFER_SIZE) :
    getLongParam cmdBuffer = getIntParam cmdBuffer ∧
    (32 ∉ cstr cmdBuffer → getIntParam cmdBuffer = 0) ∧
    (32 ∈ cstr cmdBuffer →
      LONG_MIN ≤ parsedInteger (afterFirstSpace (cstr cmdBuffer)) →
      parsedInteger (afterFirstSpace (cstr cmdBuffer)) ≤ LONG_MAX →
      getIntParam cmdBuffer = parsedInteger (afterFirstSpace (cstr cmdBuffer))) ∧
    (leadingDigits (afterFirstSpace (cstr cmdBuffer)) = [] → getIntParam cmdBuffer = 0) ∧
    getIntParam (bytes "SetSpeed 50") = 50 ∧
    getIntParam (bytes "SetSpeed") = 0 ∧
    getIntParam (bytes "SetSpeed   50") = 50 := by
  refine ⟨rfl, ?_, getIntParam_in_range cmdBuffer h, ?_, by decide, by decide, by decide⟩
  · intro hn
    rw [getIntParam_eq cmdBuffer h]
    simp [hn]
  · intro hd
    rw [getIntParam_eq cmdBuffer h, hd]
    split
    · split
      · simp [decimalValue, LONG_MIN]
      · simp [decimalValue, LONG_MAX]
    · rfl

/-- Witness of C2: a 16-slot buffer holding `SetSpeed  -50x`, a NUL and stale
bytes; the parameter is read as -50. -/
theorem getIntParam_spec_witness :
    (cstr (bytes "SetSpeed  -50x" ++ [0, 57])).length < CMD_BUFFER_SIZE ∧
      32 ∈ cstr (bytes "SetSpeed  -50x" ++ [0, 57]) ∧
      getIntParam (bytes "SetSpeed  -50x" ++ [0, 57]) = -50 :=
  ⟨by decide, by decide,
    ((getIntParam_spec (bytes "SetSpeed  -50x" ++ [0, 57]) (by decide)).2.2.1
      (by decide) (by decide) (by decide)).trans (by decide)⟩

/-- Counterexample to C2 as stated: the text after the first space of the line
`SetSpeed 99999999999` parses to 99999999999, which `getIntParam` and
`getLongParam` do not return: the value does not fit their 32-bit return type. -/
theorem getIntParam_out_of_range :
    32 ∈ cstr (bytes "SetSpeed 99999999999") ∧
      parsedInteger (afterFirstSpace (cstr (bytes "SetSpeed 99999999999"))) = 99999999999 ∧
      getIntParam (bytes "SetSpeed 99999999999") ≠ 99999999999 ∧
      getLongParam (bytes "SetSpeed 99999999999") ≠ 99999999999 := by
  decide

/-- C3 (amended): for every integer `n` of the 32-bit parameter type, dispatching
the line `MoveSteps ` followed by the decimal rendering of `n` calls
`stepper.move` once, with `n`, after echoing `Moving: `, `n` and ` steps.`;
dispatching `SetSpeed ` followed by the decimal rendering of `n` calls
`stepper.setSpeed` once, with `n`, after echoing `Setting speed: `, the
single-precision value `(float)n / 10` and ` RPM`. That value differs from
`n / 10` by at most `|n / 10| / 2 ^ 22`, and is exactly `n / 10` when `n` is a
multiple of 10 of magnitude at most `2 ^ 24`. Neither command changes a global.
`SetSpeed 500` forwards 500 and echoes 50; `MoveSteps 200` forwards 200 and
echoes 200. -/
theorem dispatch_parameter (g : Globals) (st : StepperReplies) (n : Int)
    (hlo : LONG_MIN ≤ n) (hhi : n ≤ LONG_MAX) :
    (cstr g.cmdBuffer = bytes "MoveSteps " ++ decimal n →
      dispatch g st =
          (g, [.print "Moving: ", .printInt n, .println " steps.", .move n]) ∧
        motionCalls (dispatch g st).2 = [.move n]) ∧
    (cstr g.cmdBuffer = bytes "SetSpeed " ++ decimal n →
      dispatch g st =
          (g, [.print "Setting speed: ", .printFloat (floatDiv (floatOfInt n) 10),
               .println " RPM", .setSpeed n]) ∧
        motionCalls (dispatch g st).2 = [.setSpeed n]) ∧
    |floatDiv (floatOfInt n) 10 - (n : ℚ) / 10| ≤ |(n : ℚ) / 10| / 2 ^ 22 ∧
    (|n| ≤ 2 ^ 24 → 10 ∣ n → floatDiv (floatOfInt n) 10 = (n : ℚ) / 10) ∧
    (dispatch { g with cmdBuffer := bytes "SetSpeed 500" } st).2 =
      [.print "Setting speed: ", .printFloat 50, .println " RPM", .setSpeed 500] ∧
    (dispatch { g with cmdBuffer := bytes "MoveSteps 200" } st).2 =
      [.print "Moving: ", .printInt 200, .println " steps.", .move 200] := by
  have hM : ∀ g' : Globals, cstr g'.cmdBuffer = bytes "MoveSteps " ++ decimal n →
      dispatch g' st = (g', [.print "Moving: ", .printInt n, .println " steps.", .move n]) := by
    intro g' h
    have h1 : cstr g'.cmdBuffer = bytes "MoveSteps" ++ (32 :: decimal n) := by rw [h]; rfl
    rw [dispatch_MoveSteps g' st (startsWith_of_line _ "MoveSteps" _ (by decide) h1),
      getLongParam_eq_getIntParam,
      getIntParam_verb_decimal g'.cmdBuffer (bytes "MoveSteps") n (by decide) (by decide) hlo hhi
        h1]
  have hS : ∀ g' : Globals, cstr g'.cmdBuffer = bytes "SetSpeed " ++ decimal n →
      dispatch g' st =
        (g', [.print "Setting speed: ", .printFloat (floatDiv (floatOfInt n) 10),
              .println " RPM", .setSpeed n]) := by
    intro g' h
    have h1 : cstr g'.cmdBuffer = bytes "SetSpeed" ++ (32 :: decimal n) := by rw [h]; rfl
    rw [dispatch_SetSpeed g' st (startsWith_of_line _ "SetSpeed" _ (by decide) h1),
      getIntParam_verb_decimal g'.cmdBuffer (bytes "SetSpeed") n (by decide) (by decide) hlo hhi
        h1]
  refine ⟨fun h => ⟨hM g h, ?_⟩, fun h => ⟨hS g h, ?_⟩, echo_error n, echo_exact n, ?_, ?_⟩
  · rw [hM g h]; rfl
  · rw [hS g h]; rfl
  · rw [dispatch_SetSpeed _ st
      (by show startsWith (bytes "SetSpeed 500") (bytes "SetSpeed") = true; decide)]
    have e : getIntParam (bytes "SetSpeed 500") = 500 := by decide
    simp only [e, echo_500]
  · rw [dispatch_MoveSteps _ st
      (by show startsWith (bytes "MoveSteps 200") (bytes "MoveSteps") = true; decide)]
    have e : getLongParam (bytes "MoveSteps 200") = 200 := by decide
    simp only [e]

/-- Counterexample to C3 as stated: dispatching `SetSpeed 2147483647`, whose
number fits the parameter type, forwards 2147483647 and echoes the
single-precision value 214748368, which is not 2147483647 / 10. -/
theorem dispatch_SetSpeed_echo_rounded :
    LONG_MIN ≤ 2147483647 ∧ (2147483647 : Int) ≤ LONG_MAX ∧
    bytes "SetSpeed 2147483647" = bytes "SetSpeed " ++ decimal 2147483647 ∧
    (dispatch { Globals.initial with cmdBuffer := bytes "SetSpeed 2147483647" } ⟨0, 100⟩).2 =
      [.print "Setting speed: ", .printFloat 214748368, .println " RPM",
       .setSpeed 2147483647] ∧
    (214748368 : ℚ) ≠ ((2147483647 : Int) : ℚ) / 10 := by
  refine ⟨by decide, by decide, by decide, ?_, by norm_num⟩
  rw [dispatch_SetSpeed _ _
    (by show startsWith (bytes "SetSpeed 2147483647") (bytes "SetSpeed") = true; decide)]
  have e : getIntParam (bytes "SetSpeed 2147483647") = 2147483647 := by decide
  simp only [e, echo_INT_MAX]

/-- Witness of C3: a buffer holding `MoveSteps -42`, a NUL and a stale byte
forwards -42 to `stepper.move`. -/
theorem dispatch_parameter_witness :
    LONG_MIN ≤ -42 ∧ -42 ≤ LONG_MAX ∧
      cstr ({ Globals.initial with cmdBuffer := bytes "MoveSteps -42" ++ [0, 55] }).cmdBuffer
        = bytes "MoveSteps " ++ decimal (-42) ∧
      dispatch { Globals.initial with cmdBuffer := bytes "MoveSteps -42" ++ [0, 55] } ⟨0, 0⟩ =
        ({ Globals.initial with cmdBuffer := bytes "MoveSteps -42" ++ [0, 55] },
          [.print "Moving: ", .printInt (-42), .println " steps.", .move (-42)]) :=
  ⟨by decide, by decide, by decide,
    ((dispatch_parameter _ _ (-42) (by decide) (by decide)).1 (by decide)).1⟩

/-- C4 (amended): dispatching the command line `Stop` issues a ramped stop to the
motion controller, `rotate(0)`, changes no global and writes nothing to the
serial link. -/
theorem dispatch_Stop_spec (g : Globals) (st : StepperReplies)
    (h : cstr g.cmdBuffer = bytes "Stop") :
    dispatch g st = (g, [.rotate 0]) :=
  dispatch_Stop g st h

/-- Witness of C4 (amended): the buffer holding `Stop`, a NUL and stale bytes. -/
theorem dispatch_Stop_spec_witness :
    cstr ({ Globals.initial with cmdBuffer := bytes "Stop" ++ [0, 112, 0] }).cmdBuffer
        = bytes "Stop" ∧
      dispatch { Globals.initial with cmdBuffer := bytes "Stop" ++ [0, 112, 0] } ⟨7, 100⟩ =
        ({ Globals.initial with cmdBuffer := bytes "Stop" ++ [0, 112, 0] }, [.rotate 0]) :=
  ⟨by decide, dispatch_Stop_spec _ _ (by decide)⟩

/-- Counterexample to C4 as stated: the bytes `Stop` and a newline arrive on the
serial port of the freshly started firmware; `ProcessSerialCommands` reads the
line `Stop` and its only call is `stepper.rotate(0)`: no `Stop and halt!` is
written. -/
theorem ProcessSerialCommands_Stop_silent :
    (ProcessSerialCommands Globals.initial (bytes "Stop" ++ [10]) 0
        [⟨[], 0⟩, ⟨[], 0⟩, ⟨[], 0⟩, ⟨[], 0⟩, ⟨[], 1⟩] ⟨0, 100⟩).map (fun r => r.effects)
      = some [.rotate 0] ∧
    Effect.println "Stop and halt!" ∉
      (dispatch { Globals.initial with cmdBuffer := bytes "Stop" } ⟨0, 100⟩).2 := by
  decide

/-- The C5 failing input: the `int` id 256 is not 0 or 1, yet `readTotalPosition`,
`readAngularSpeed`, `readAngle` and `init` each write the byte `1 << 0` to the
multiplexer, selecting channel 0, because the id is narrowed to `uint8_t` before
the range test; ids 2 and -1 are rejected without a bus write. -/
theorem tcaselect_id_256 :
    busBytes (Sensors.readTotalPosition 256 0).1 = [1] ∧
    busBytes (Sensors.readAngularSpeed 256 0).1 = [1] ∧
    busBytes (Sensors.readAngle 256 0 0).1 = [1] ∧
    (Sensors.init 256 0 [true]).map busBytes = some [1] ∧
    busBytes (Sensors.readTotalPosition 2 0).1 = [] ∧
    busBytes (Sensors.readTotalPosition (-1) 0).1 = [] := by
  decide

/-- The range test of `tcaselect` on its own `uint8_t` argument: an index above 1
writes nothing to the bus, the indices 0 and 1 write the one byte `1 << i`
inside a transmission to address `0x70`. -/
theorem tcaselect_guard (i : Nat) :
    (1 < i → busBytes (tcaselect i) = []) ∧
    (i ≤ 1 → tcaselect i =
      [.wireBeginTransmission 0x70, .wireWrite (1 <<< i), .wireEndTransmission]) := by
  constructor
  · intro h
    simp [tcaselect, h, busBytes]
  · intro h
    have : ¬ i > 1 := by omega
    simp [tcaselect, this, TCAADDR]

/-- C8: in a call of `CheckButtonStates` whose only event is a press edge on UP
while the speed switch reads `HIGH`, the enable pin is set `HIGH` and the motion
controller receives `setSpeed(500)` then `rotate(-1)` and nothing else; in a call
whose only event is a release edge on UP it receives `rotate(0)` and nothing
else. When a press and a release edge of the same button are reported in one
call, the calls of the press come before those of the stop: for UP the calls of
`MoveUp`, then those of `Stop`, then whatever DOWN asks for; for DOWN whatever UP
asks for, then the calls of `MoveDown`, then those of `Stop`. `MoveUp` and
`MoveDown` set the speed to 500 when the switch reads `HIGH` and 5000 when it
reads `LOW`, then rotate by -1 and 1. -/
theorem CheckButtonStates_up (g : Globals) :
    (CheckButtonStates g ⟨true, false, false, false, true⟩).2 =
      [.digitalWrite ENABLE_PIN true, .println "Going up!", .setSpeed 500, .rotate (-1)] ∧
    motionCalls (CheckButtonStates g ⟨true, false, false, false, true⟩).2 =
      [.setSpeed 500, .rotate (-1)] ∧
    (∀ sw : Bool,
      (CheckButtonStates g ⟨false, true, false, false, sw⟩).2 =
        [.println "Stop and halt!", .rotate 0] ∧
      motionCalls (CheckButtonStates g ⟨false, true, false, false, sw⟩).2 = [.rotate 0]) ∧
    (∀ b : ButtonInput, b.upPressed = true → b.upReleased = true →
      (CheckButtonStates g b).2 =
        MoveUp { g with speedSwitchState := b.speedSwitch } ++ (Stop ++
          ((if b.downPressed then MoveDown { g with speedSwitchState := b.speedSwitch } else [])
            ++ (if b.downReleased then Stop else [])))) ∧
    (∀ b : ButtonInput, b.downPressed = true → b.downReleased = true →
      (CheckButtonStates g b).2 =
        (if b.upPressed then MoveUp { g with speedSwitchState := b.speedSwitch } else []) ++
          ((if b.upReleased then Stop else []) ++
            (MoveDown { g with speedSwitchState := b.speedSwitch } ++ Stop))) ∧
    (∀ sw : Bool,
      motionCalls (CheckButtonStates g ⟨true, true, false, false, sw⟩).2 =
        [.setSpeed (if sw then 500 else 5000), .rotate (-1), .rotate 0] ∧
      motionCalls (CheckButtonStates g ⟨false, false, true, true, sw⟩).2 =
        [.setSpeed (if sw then 500 else 5000), .rotate 1, .rotate 0]) ∧
    (∀ sw : Bool,
      MoveUp { g with speedSwitchState := sw } =
        [.digitalWrite ENABLE_PIN true,
         .println (if sw then "Going up!" else "Going up fast!"),
         .setSpeed (if sw then 500 else 5000), .rotate (-1)] ∧
      MoveDown { g with speedSwitchState := sw } =
        [.digitalWrite ENABLE_PIN true,
         .println (if sw then "Going down!" else "Going down fast!"),
         .setSpeed (if sw then 500 else 5000), .rotate 1]) ∧
    Stop = [.println "Stop and halt!", .rotate 0] := by
  refine ⟨rfl, rfl, ?_, ?_, ?_, ?_, ?_, rfl⟩
  · intro sw
    cases sw <;> exact ⟨rfl, rfl⟩
  · intro b hp hr
    simp only [CheckButtonStates, hp, hr, if_true, List.append_assoc]
  · intro b hp hr
    simp only [CheckButtonStates, hp, hr, if_true, List.append_assoc]
  · intro sw
    cases sw <;> exact ⟨rfl, rfl⟩
  · intro sw
    cases sw <;> exact ⟨rfl, rfl⟩

/-- Witness of C8: press and release of DOWN reported together with a press of
UP, switch `LOW`: the calls of `MoveUp`, then those of `MoveDown`, then those of
`Stop`. -/
theorem CheckButtonStates_up_witness :
    (CheckButtonStates Globals.initial ⟨true, false, true, true, false⟩).2 =
      [.digitalWrite ENABLE_PIN true, .println "Going up fast!", .setSpeed 5000, .rotate (-1),
       .digitalWrite ENABLE_PIN true, .println "Going down fast!", .setSpeed 5000, .rotate 1,
       .println "Stop and halt!", .rotate 0] :=
  (CheckButtonStates_up Globals.initial).2.2.2.2.1 ⟨true, false, true, true, false⟩ rfl rfl

/-- C9: for every command line at most one of the conditions tested by
`ProcessSerialCommands` holds, so the body that runs, selected by first match, is
the same whatever the order in which the tests and their bodies are tried. -/
theorem conditions_exclusive (g : Globals) (st : StepperReplies) :
    (conditions g.cmdBuffer).count true ≤ 1 ∧
    ∀ table : List (Bool × (Globals × List Effect)),
      table.Perm ((conditions g.cmdBuffer).zip (handlers g st)) →
      firstMatch (g, []) table = dispatch g st := by
  refine ⟨conditions_count _, fun table hp => ?_⟩
  rw [dispatch_eq_firstMatch]
  apply firstMatch_perm _ hp
  rw [map_fst_zip_conditions]
  exact conditions_count _

/-- Witness of C9: with the line `SetSpeed 70`, trying the tests in reverse order
runs the same body as the chain. -/
theorem conditions_exclusive_witness :
    firstMatch ({ Globals.initial with cmdBuffer := bytes "SetSpeed 70" }, [])
        ((conditions (bytes "SetSpeed 70")).zip
          (handlers { Globals.initial with cmdBuffer := bytes "SetSpeed 70" } ⟨0, 0⟩)).reverse
      = dispatch { Globals.initial with cmdBuffer := bytes "SetSpeed 70" } ⟨0, 0⟩ :=
  (conditions_exclusive { Globals.initial with cmdBuffer := bytes "SetSpeed 70" } ⟨0, 0⟩).2 _
    (List.reverse_perm _)

/-! ## Facts about the smoothing window -/

theorem pollAll_append (g : Globals) (rs : List (Int × ℚ)) (r : Int × ℚ) :
    pollAll g (rs ++ [r]) = (pollSensors (pollAll g rs) r.1 r.2).1 := by
  induction rs generalizing g with
  | nil => rfl
  | cons x xs ih => exact ih _

theorem foldl_range_getD (buf : List ℚ) (n : Nat) (h : n ≤ buf.length) :
    (List.range n).foldl (fun sum i => sum + buf.getD i 0) 0 = (buf.take n).sum := by
  induction n with
  | zero => simp
  | succ m ih =>
    rw [List.range_succ, List.foldl_append, ih (by omega), List.sum_take_succ buf m (by omega)]
    simp only [List.foldl_cons, List.foldl_nil, List.getD_eq_getElem?_getD]
    rw [List.getElem?_eq_getElem (by omega)]
    rfl

theorem Average_eq_sum (buf : List ℚ) (h : buf.length = NUMBER_READINGS) :
    Average buf = buf.sum / 20 := by
  unfold Average
  rw [foldl_range_getD buf NUMBER_READINGS (by omega), ← h, List.take_length]
  rw [h]
  norm_num [NUMBER_READINGS]

theorem window_invariant (g : Globals)
    (hbuf : g.angularSpeedBuffer = List.replicate NUMBER_READINGS 0) (hidx : g.bufferIndex = 0)
    (rs : List (Int × ℚ)) :
    (pollAll g rs).bufferIndex = rs.length % 20 ∧
    (pollAll g rs).angularSpeedBuffer.length = 20 ∧
    (∀ i, i < rs.length → rs.length ≤ i + 20 →
      (pollAll g rs).angularSpeedBuffer[i % 20]? = (samples rs)[i]?) ∧
    (∀ j, rs.length ≤ j → j < 20 → (pollAll g rs).angularSpeedBuffer[j]? = some 0) ∧
    (pollAll g rs).angularSpeedBuffer.sum = ((samples rs).drop (rs.length - 20)).sum ∧
    (0 < rs.length →
      (pollAll g rs).averageAngularSpeed = Average (pollAll g rs).angularSpeedBuffer) := by
  induction rs using List.reverseRecOn with
  | nil =>
    refine ⟨by simp [pollAll, hidx], by simp [pollAll, hbuf, NUMBER_READINGS], ?_, ?_, ?_, ?_⟩
    · intro i hi; simp at hi
    · intro j _ hj
      simp only [pollAll, hbuf, NUMBER_READINGS]
      rw [List.getElem?_replicate]
      simp [hj]
    · simp [pollAll, hbuf, samples]
    · intro h; simp at h
  | append_singleton rs r ih =>
    obtain ⟨hI, hL, hP, hZ, hS, _⟩ := ih
    rw [pollAll_append]
    set g1 := pollAll g rs with hg1
    set k := rs.length with hk
    have hlen : (rs ++ [r]).length = k + 1 := by simp [hk]
    have hs : samples (rs ++ [r]) = samples rs ++ [r.2 / 6] := by simp [samples]
    have hsl : (samples rs).length = k := by simp [samples, hk]
    have hidx1 : g1.bufferIndex < 20 := by rw [hI]; exact Nat.mod_lt _ (by decide)
    have hbufeq : (pollSensors g1 r.1 r.2).1.angularSpeedBuffer =
        g1.angularSpeedBuffer.set (k % 20) (r.2 / 6) := by
      simp [pollSensors, Sensors.readAngularSpeed, hI]
    have hidxeq : (pollSensors g1 r.1 r.2).1.bufferIndex = (k % 20 + 1) % 20 := by
      simp [pollSensors, hI, NUMBER_READINGS]
    have havg : (pollSensors g1 r.1 r.2).1.averageAngularSpeed =
        Average ((pollSensors g1 r.1 r.2).1.angularSpeedBuffer) := by
      simp [pollSensors, Sensors.readAngularSpeed]
    rw [hlen, hs, hbufeq, hidxeq]
    refine ⟨by omega, by simp [hL], ?_, ?_, ?_, ?_⟩
    · intro i hi hi2
      by_cases hik : i = k
      · subst hik
        rw [List.getElem?_set_self (by rw [hL]; exact Nat.mod_lt _ (by decide))]
        rw [List.getElem?_append_right (by omega)]
        simp [hsl]
      · have hne : k % 20 ≠ i % 20 := by omega
        rw [List.getElem?_set_ne hne, hP i (by omega) (by omega)]
        rw [List.getElem?_append_left (by omega)]
    · intro j hj hj2
      have hne : k % 20 ≠ j := by omega
      rw [List.getElem?_set_ne hne]
      exact hZ j (by omega) hj2
    · rw [List.sum_set', hS]
      have hlt : k % 20 < g1.angularSpeedBuffer.length := by
        rw [hL]; exact Nat.mod_lt _ (by decide)
      simp only [hlt, dite_true]
      by_cases hk20 : 20 ≤ k
      · have h1 := hP (k - 20) (by omega) (by omega)
        have e1 : (k - 20) % 20 = k % 20 := by omega
        rw [e1, List.getElem?_eq_getElem hlt,
          List.getElem?_eq_getElem (by omega : k - 20 < (samples rs).length)] at h1
        have h2 := Option.some.inj h1
        rw [h2]
        have e2 : k + 1 - 20 = (k - 20) + 1 := by omega
        rw [e2, List.drop_append_of_le_length (by omega),
          List.drop_eq_getElem_cons (by omega : k - 20 < (samples rs).length)]
        simp only [List.sum_cons, List.sum_append, List.sum_singleton, List.sum_nil]
        ring
      · have h1 := hZ k le_rfl (by omega)
        have e1 : k % 20 = k := Nat.mod_eq_of_lt (by omega)
        have e3 : g1.angularSpeedBuffer[k % 20] = 0 := by
          have h3 : g1.angularSpeedBuffer[k % 20]? = some 0 := by rw [e1]; exact h1
          rw [List.getElem?_eq_getElem hlt] at h3
          exact Option.some.inj h3
        rw [e3]
        have e2 : k + 1 - 20 = 0 := by omega
        have e4 : k - 20 = 0 := by omega
        rw [e2, e4]
        simp
    · intro _
      rw [havg, hbufeq]

/-- C6: over exact arithmetic, starting from the zero-initialised 20-slot window
with cursor 0, after `k` sensor polls the cursor is `k mod 20`, slot `i mod 20`
holds sample `i` for each of the last `min k 20` samples, the slots not yet
written hold 0, and the average, as `Average` computes it and as the poll stores
it, is the sum of the last `min k 20` samples divided by 20; so when `k` is at
least 20 and the last 20 samples all equal `v`, the average is `v`. -/
theorem window_spec (g : Globals)
    (hbuf : g.angularSpeedBuffer = List.replicate NUMBER_READINGS 0) (hidx : g.bufferIndex = 0)
    (rs : List (Int × ℚ)) :
    (pollAll g rs).bufferIndex = rs.length % 20 ∧
    (pollAll g rs).bufferIndex < 20 ∧
    (pollAll g rs).angularSpeedBuffer.length = 20 ∧
    (∀ i, i < rs.length → rs.length ≤ i + 20 →
      (pollAll g rs).angularSpeedBuffer.getD (i % 20) 0 = (samples rs).getD i 0) ∧
    (∀ j, rs.length ≤ j → j < 20 → (pollAll g rs).angularSpeedBuffer.getD j 0 = 0) ∧
    Average (pollAll g rs).angularSpeedBuffer
      = ((samples rs).drop (rs.length - 20)).sum / 20 ∧
    (0 < rs.length →
      (pollAll g rs).averageAngularSpeed = ((samples rs).drop (rs.length - 20)).sum / 20) ∧
    (∀ v, 20 ≤ rs.length → (∀ x ∈ (samples rs).drop (rs.length - 20), x = v) →
      (pollAll g rs).averageAngularSpeed = v) := by
  obtain ⟨hI, hL, hP, hZ, hS, hA⟩ := window_invariant g hbuf hidx rs
  have hAvg : Average (pollAll g rs).angularSpeedBuffer
      = ((samples rs).drop (rs.length - 20)).sum / 20 := by
    rw [Average_eq_sum _ (by rw [hL]; rfl), hS]
  refine ⟨hI, by rw [hI]; exact Nat.mod_lt _ (by decide), hL, ?_, ?_, hAvg, ?_, ?_⟩
  · intro i h1 h2
    simp only [List.getD_eq_getElem?_getD]
    rw [hP i h1 h2]
  · intro j h1 h2
    simp only [List.getD_eq_getElem?_getD]
    rw [hZ j h1 h2]
    rfl
  · intro hpos
    rw [hA hpos, hAvg]
  · intro v hk hall
    rw [hA (by omega), hAvg]
    have hlen : ((samples rs).drop (rs.length - 20)).length = 20 := by
      simp [samples]
      omega
    have hrep : (samples rs).drop (rs.length - 20) = List.replicate 20 v :=
      List.eq_replicate_iff.2 ⟨hlen, hall⟩
    rw [hrep, List.sum_replicate]
    simp

/-- Witness of C6: 21 polls whose driver answer is 72 degrees per second each
push the sample 12; the window is full of 12 and the stored average is 12. -/
theorem window_spec_witness :
    Globals.initial.angularSpeedBuffer = List.replicate NUMBER_READINGS 0 ∧
      Globals.initial.bufferIndex = 0 ∧
      (pollAll Globals.initial (List.replicate 21 (0, 72))).bufferIndex = 1 ∧
      (pollAll Globals.initial (List.replicate 21 (0, 72))).averageAngularSpeed = 12 :=
  ⟨rfl, rfl, (window_spec Globals.initial rfl rfl (List.replicate 21 (0, 72))).1,
    (window_spec Globals.initial rfl rfl (List.replicate 21 (0, 72))).2.2.2.2.2.2.2 12
      (by simp)
      (by
        intro x hx
        have hx' := List.mem_of_mem_drop hx
        simp only [samples, List.map_replicate] at hx'
        rw [List.eq_of_mem_replicate hx']
        norm_num)⟩

/-! ## Facts about the two rate limiters -/

theorem elapsed_of_le {d t : Nat} (h : d ≤ t) (ht : t < 2 ^ 32) : elapsed d t = t - d := by
  unfold elapsed
  have e : (2 : Nat) ^ 32 = 4294967296 := by norm_num
  rw [e] at ht ⊢
  omega

theorem firstMatch_prop {α : Type} (P : α → Prop) (d : α) (l : List (Bool × α)) (hd : P d)
    (hl : ∀ x ∈ l, P x.2) : P (firstMatch d l) := by
  induction l with
  | nil => exact hd
  | cons x xs ih =>
    obtain ⟨c, h⟩ := x
    cases c with
    | true => exact hl (true, h) (List.mem_cons_self _ _)
    | false => exact ih fun y hy => hl y (List.mem_cons_of_mem _ hy)

theorem handlers_frame (g : Globals) (st : StepperReplies) :
    ∀ h ∈ handlers g st, h.1.delayTimeLoadCell = g.delayTimeLoadCell ∧
      h.1.delayTimeSensors = g.delayTimeSensors := by
  intro h hh
  unfold handlers at hh
  simp only [List.mem_cons, List.mem_singleton, List.not_mem_nil, or_false] at hh
  rcases hh with rfl | rfl | rfl | rfl | rfl | rfl | rfl | rfl | rfl | rfl | rfl | rfl | rfl |
    rfl | rfl | rfl | rfl | rfl | rfl <;> exact ⟨rfl, rfl⟩

theorem dispatch_frame (g : Globals) (st : StepperReplies) :
    (dispatch g st).1.delayTimeLoadCell = g.delayTimeLoadCell ∧
    (dispatch g st).1.delayTimeSensors = g.delayTimeSensors := by
  rw [dispatch_eq_firstMatch]
  apply firstMatch_prop (fun h : Globals × List Effect =>
    h.1.delayTimeLoadCell = g.delayTimeLoadCell ∧ h.1.delayTimeSensors = g.delayTimeSensors)
  · exact ⟨rfl, rfl⟩
  · intro x hx
    exact handlers_frame g st x.2 (List.of_mem_zip hx).2

theorem ProcessSerialCommands_frame {g : Globals} {rx : List Nat} {startTime : Nat}
    {ticks : List Tick} {st : StepperReplies} {s : SerialResult}
    (h : ProcessSerialCommands g rx startTime ticks st = some s) :
    s.g.delayTimeLoadCell = g.delayTimeLoadCell ∧ s.g.delayTimeSensors = g.delayTimeSensors := by
  unfold ProcessSerialCommands at h
  split at h
  · exact absurd h (by simp)
  · next r _ =>
    split at h
    · have e := Option.some.inj h
      rw [← e]
      exact dispatch_frame _ st
    · have e := Option.some.inj h
      rw [← e]
      exact ⟨rfl, rfl⟩

theorem ReportLoadCell_cases (g : Globals) (a b : Nat) :
    (ReportLoadCell g a b).1.delayTimeSensors = g.delayTimeSensors ∧
    (((ReportLoadCell g a b).2 = [] ∧
        (ReportLoadCell g a b).1.delayTimeLoadCell = g.delayTimeLoadCell) ∨
      ((ReportLoadCell g a b).2 ≠ [] ∧ 50 ≤ elapsed g.delayTimeLoadCell a ∧
        (ReportLoadCell g a b).1.delayTimeLoadCell = b)) := by
  unfold ReportLoadCell
  split_ifs with h1 h2
  · exact ⟨rfl, Or.inr ⟨by simp, h2, rfl⟩⟩
  · exact ⟨rfl, Or.inl ⟨rfl, rfl⟩⟩
  · exact ⟨rfl, Or.inl ⟨rfl, rfl⟩⟩

theorem pollSensors_effects_ne_nil (g : Globals) (position : Int) (speed : ℚ) :
    (pollSensors g position speed).2 ≠ [] := by
  simp [pollSensors, Sensors.readTotalPosition]

theorem ProcessSensors_cases (g : Globals) (a b : Nat) (position : Int) (speed : ℚ) :
    (ProcessSensors g a b position speed).1.delayTimeLoadCell = g.delayTimeLoadCell ∧
    (((ProcessSensors g a b position speed).2 = [] ∧
        (ProcessSensors g a b position speed).1.delayTimeSensors = g.delayTimeSensors) ∨
      ((ProcessSensors g a b position speed).2 ≠ [] ∧ 50 ≤ elapsed g.delayTimeSensors a ∧
        (ProcessSensors g a b position speed).1.delayTimeSensors = b)) := by
  unfold ProcessSensors
  split_ifs with h1
  · exact ⟨rfl, Or.inr ⟨pollSensors_effects_ne_nil _ _ _, h1, rfl⟩⟩
  · exact ⟨rfl, Or.inl ⟨rfl, rfl⟩⟩

theorem loop_cases {m : Machine} {e : LoopEnv} {r : LoopResult} (h : loop m e = some r) :
    ((r.load = [] ∧ r.m.g.delayTimeLoadCell = m.g.delayTimeLoadCell) ∨
      (r.load ≠ [] ∧ 50 ≤ elapsed m.g.delayTimeLoadCell e.tLoadCheck ∧
        r.m.g.delayTimeLoadCell = e.tLoadStamp)) ∧
    ((r.sensors = [] ∧ r.m.g.delayTimeSensors = m.g.delayTimeSensors) ∨
      (r.sensors ≠ [] ∧ 50 ≤ elapsed m.g.delayTimeSensors e.tSensCheck ∧
        r.m.g.delayTimeSensors = e.tSensStamp)) := by
  unfold loop at h
  split at h
  · exact absurd h (by simp)
  · next s hs =>
    obtain ⟨f1, f2⟩ := ProcessSerialCommands_frame hs
    have e1 := Option.some.inj h
    rw [← e1]
    simp only
    by_cases hr : e.loadReady = true
    · simp only [hr, if_true]
      obtain ⟨l1, l2⟩ := ReportLoadCell_cases
        { (CheckButtonStates s.g e.buttons).1 with force := e.loadValue } e.tLoadCheck e.tLoadStamp
      obtain ⟨p1, p2⟩ := ProcessSensors_cases
        (ReportLoadCell { (CheckButtonStates s.g e.buttons).1 with force := e.loadValue }
          e.tLoadCheck e.tLoadStamp).1 e.tSensCheck e.tSensStamp e.position e.speed
      have c1 : ({ (CheckButtonStates s.g e.buttons).1 with force := e.loadValue } :
          Globals).delayTimeLoadCell = m.g.delayTimeLoadCell := f1
      have c2 : ({ (CheckButtonStates s.g e.buttons).1 with force := e.loadValue } :
          Globals).delayTimeSensors = m.g.delayTimeSensors := f2
      rw [c1] at l2
      rw [c2] at l1
      rw [l1] at p2
      rw [p1]
      exact ⟨l2, p2⟩
    · have hr' : e.loadReady = false := by simpa using hr
      rw [hr']
      obtain ⟨p1, p2⟩ := ProcessSensors_cases (CheckButtonStates s.g e.buttons).1
        e.tSensCheck e.tSensStamp e.position e.speed
      have c1 : (CheckButtonStates s.g e.buttons).1.delayTimeLoadCell = m.g.delayTimeLoadCell :=
        f1
      have c2 : (CheckButtonStates s.g e.buttons).1.delayTimeSensors = m.g.delayTimeSensors :=
        f2
      rw [c2] at p2
      refine ⟨Or.inl ⟨rfl, ?_⟩, p2⟩
      exact p1.trans c1

theorem runStamps_cons {m : Machine} {e : LoopEnv} {es : List LoopEnv} {ls ss : List Nat}
    (h : runStamps m (e :: es) = some (ls, ss)) :
    ∃ r ls' ss', loop m e = some r ∧ runStamps r.m es = some (ls', ss') ∧
      ls = (if r.load = [] then ls' else e.tLoadStamp :: ls') ∧
      ss = (if r.sensors = [] then ss' else e.tSensStamp :: ss') := by
  unfold runStamps at h
  split at h
  · exact absurd h (by simp)
  · next r hr =>
    split at h
    · exact absurd h (by simp)
    · next ls' ss' hrun =>
      have e1 := Option.some.inj h
      exact ⟨r, ls', ss', hr, hrun, (Prod.mk.inj e1).1.symm, (Prod.mk.inj e1).2.symm⟩

theorem load_stamps_after (es : List LoopEnv) :
    ∀ (m : Machine) (ls ss : List Nat), runStamps m es = some (ls, ss) →
      (clockReadings es).Pairwise (fun a b => a ≤ b) →
      (∀ t ∈ clockReadings es, t < 2 ^ 32) →
      (∀ t ∈ clockReadings es, m.g.delayTimeLoadCell ≤ t) →
      (∀ s ∈ ls, m.g.delayTimeLoadCell + 50 ≤ s) ∧ ls.Pairwise (fun a b => a + 50 ≤ b) := by
  induction es with
  | nil =>
    intro m ls ss h _ _ _
    have e1 := Option.some.inj h
    have : ls = [] := (Prod.mk.inj e1).1.symm
    subst this
    simp
  | cons e es ih =>
    intro m ls ss h hmono hwrap hd
    obtain ⟨r, ls', ss', hl, hrun, hls, _⟩ := runStamps_cons h
    simp only [clockReadings, List.pairwise_cons, List.mem_cons, forall_eq_or_imp] at hmono hwrap hd
    obtain ⟨⟨hab, _, _, harest⟩, ⟨_, _, hbrest⟩, _, _, hrest⟩ := hmono
    obtain ⟨wa, wb, _, _, wrest⟩ := hwrap
    obtain ⟨da, _, _, _, drest⟩ := hd
    rcases (loop_cases hl).1 with ⟨hnil, hsame⟩ | ⟨hne, hel, hnew⟩
    · rw [hls, if_pos hnil]
      have := ih r.m ls' ss' hrun hrest wrest (by rw [hsame]; exact drest)
      rw [hsame] at this
      exact this
    · rw [hls, if_neg hne]
      rw [elapsed_of_le da wa] at hel
      obtain ⟨i1, i2⟩ := ih r.m ls' ss' hrun hrest wrest (by rw [hnew]; exact hbrest)
      rw [hnew] at i1
      refine ⟨?_, List.pairwise_cons.2 ⟨i1, i2⟩⟩
      intro s hs
      rcases List.mem_cons.1 hs with e1 | e1
      · rw [e1]; omega
      · have := i1 s e1
        omega

theorem load_stamps_spaced (es : List LoopEnv) :
    ∀ (m : Machine) (ls ss : List Nat), runStamps m es = some (ls, ss) →
      (clockReadings es).Pairwise (fun a b => a ≤ b) →
      (∀ t ∈ clockReadings es, t < 2 ^ 32) →
      ls.Pairwise (fun a b => a + 50 ≤ b) := by
  induction es with
  | nil =>
    intro m ls ss h _ _
    have e1 := Option.some.inj h
    have : ls = [] := (Prod.mk.inj e1).1.symm
    subst this
    simp
  | cons e es ih =>
    intro m ls ss h hmono hwrap
    obtain ⟨r, ls', ss', hl, hrun, hls, _⟩ := runStamps_cons h
    simp only [clockReadings, List.pairwise_cons, List.mem_cons, forall_eq_or_imp] at hmono hwrap
    obtain ⟨_, ⟨_, _, hbrest⟩, _, _, hrest⟩ := hmono
    obtain ⟨_, _, _, _, wrest⟩ := hwrap
    rcases (loop_cases hl).1 with ⟨hnil, _⟩ | ⟨hne, _, hnew⟩
    · rw [hls, if_pos hnil]
      exact ih r.m ls' ss' hrun hrest wrest
    · rw [hls, if_neg hne]
      obtain ⟨i1, i2⟩ :=
        load_stamps_after es r.m ls' ss' hrun hrest wrest (by rw [hnew]; exact hbrest)
      rw [hnew] at i1
      exact List.pairwise_cons.2 ⟨i1, i2⟩

theorem sensor_stamps_after (es : List LoopEnv) :
    ∀ (m : Machine) (ls ss : List Nat), runStamps m es = some (ls, ss) →
      (clockReadings es).Pairwise (fun a b => a ≤ b) →
      (∀ t ∈ clockReadings es, t < 2 ^ 32) →
      (∀ t ∈ clockReadings es, m.g.delayTimeSensors ≤ t) →
      (∀ s ∈ ss, m.g.delayTimeSensors + 50 ≤ s) ∧ ss.Pairwise (fun a b => a + 50 ≤ b) := by
  induction es with
  | nil =>
    intro m ls ss h _ _ _
    have e1 := Option.some.inj h
    have : ss = [] := (Prod.mk.inj e1).2.symm
    subst this
    simp
  | cons e es ih =>
    intro m ls ss h hmono hwrap hd
    obtain ⟨r, ls', ss', hl, hrun, _, hss⟩ := runStamps_cons h
    simp only [clockReadings, List.pairwise_cons, List.mem_cons, forall_eq_or_imp] at hmono hwrap hd
    obtain ⟨_, _, ⟨hcd, _⟩, hdrest, hrest⟩ := hmono
    obtain ⟨_, _, wc, wd, wrest⟩ := hwrap
    obtain ⟨_, _, dc, _, drest⟩ := hd
    rcases (loop_cases hl).2 with ⟨hnil, hsame⟩ | ⟨hne, hel, hnew⟩
    · rw [hss, if_pos hnil]
      have := ih r.m ls' ss' hrun hrest wrest (by rw [hsame]; exact drest)
      rw [hsame] at this
      exact this
    · rw [hss, if_neg hne]
      rw [elapsed_of_le dc wc] at hel
      obtain ⟨i1, i2⟩ := ih r.m ls' ss' hrun hrest wrest (by rw [hnew]; exact hdrest)
      rw [hnew] at i1
      refine ⟨?_, List.pairwise_cons.2 ⟨i1, i2⟩⟩
      intro s hs
      rcases List.mem_cons.1 hs with e1 | e1
      · rw [e1]; omega
      · have := i1 s e1
        omega

theorem sensor_stamps_spaced (es : List LoopEnv) :
    ∀ (m : Machine) (ls ss : List Nat), runStamps m es = some (ls, ss) →
      (clockReadings es).Pairwise (fun a b => a ≤ b) →
      (∀ t ∈ clockReadings es, t < 2 ^ 32) →
      ss.Pairwise (fun a b => a + 50 ≤ b) := by
  induction es with
  | nil =>
    intro m ls ss h _ _
    have e1 := Option.some.inj h
    have : ss = [] := (Prod.mk.inj e1).2.symm
    subst this
    simp
  | cons e es ih =>
    intro m ls ss h hmono hwrap
    obtain ⟨r, ls', ss', hl, hrun, _, hss⟩ := runStamps_cons h
    simp only [clockReadings, List.pairwise_cons, List.mem_cons, forall_eq_or_imp] at hmono hwrap
    obtain ⟨_, _, _, hdrest, hrest⟩ := hmono
    obtain ⟨_, _, _, _, wrest⟩ := hwrap
    rcases (loop_cases hl).2 with ⟨hnil, _⟩ | ⟨hne, _, hnew⟩
    · rw [hss, if_pos hnil]
      exact ih r.m ls' ss' hrun hrest wrest
    · rw [hss, if_neg hne]
      obtain ⟨i1, i2⟩ :=
        sensor_stamps_after es r.m ls' ss' hrun hrest wrest (by rw [hnew]; exact hdrest)
      rw [hnew] at i1
      exact List.pairwise_cons.2 ⟨i1, i2⟩

/-! ## Facts about `readCommand` -/

theorem take_succ_set (l : List Nat) (i c : Nat) (h : i < l.length) :
    (l.set i c).take (i + 1) = l.take i ++ [c] := by
  induction l generalizing i with
  | nil => simp at h
  | cons x xs ih =>
    cases i with
    | zero => simp
    | succ j =>
      simp only [List.length_cons] at h
      simp [ih j (by omega)]

theorem getLast?_cons_of_getLast? {α : Type} (t t' : α) (l : List α) (h : l.getLast? = some t') :
    (t :: l).getLast? = some t' := by
  cases l with
  | nil => simp at h
  | cons x xs => rw [List.getLast?_cons_cons]; exact h

theorem readLoop_spec (startTime : Nat) (ticks : List Tick) :
    ∀ (idx : Nat) (buf rx : List Nat) (e : LoopExit),
      readLoop startTime ticks idx buf rx = some e → idx ≤ 63 → buf.length = 64 →
      ∃ used stored,
        ticks = used ++ e.rest ∧
        e.idx = idx + stored.length ∧ e.idx ≤ 63 ∧
        e.cmdBuffer = buf.take idx ++ stored ++ buf.drop (idx + stored.length) ∧
        (∀ c ∈ stored, c ≠ 10 ∧ c ≠ 13) ∧
        ((∃ c, (c = 10 ∨ c = 13) ∧ rx ++ arrived used = stored ++ c :: e.rx) ∨
         (rx ++ arrived used = stored ++ e.rx ∧
           (e.idx = 63 ∨ ∃ t, used.getLast? = some t ∧ 100 < elapsed startTime t.now))) := by
  induction ticks with
  | nil =>
    intro idx buf rx e h hidx hlen
    unfold readLoop at h
    split at h
    · exact absurd h (by simp)
    · next hlt =>
      have e1 := Option.some.inj h
      subst e1
      simp only [CMD_BUFFER_SIZE] at hlt
      refine ⟨[], [], rfl, rfl, hidx, by simp, by simp, Or.inr ⟨by simp [arrived], Or.inl ?_⟩⟩
      show idx = 63
      omega
  | cons t ts ih =>
    intro idx buf rx e h hidx hlen
    unfold readLoop at h
    split at h
    · next hlt =>
      simp only [CMD_BUFFER_SIZE] at hlt
      split at h
      · next c rx1 hrx =>
        split at h
        · next hterm =>
          have e1 := Option.some.inj h
          subst e1
          refine ⟨[t], [], rfl, rfl, hidx, by simp, by simp, Or.inl ⟨c, hterm, ?_⟩⟩
          simp [arrived, hrx]
        · next hterm =>
          have hc : c ≠ 10 ∧ c ≠ 13 := by
            constructor
            · intro h1; exact hterm (Or.inl h1)
            · intro h1; exact hterm (Or.inr h1)
          split at h
          · next hto =>
            have e1 := Option.some.inj h
            subst e1
            refine ⟨[t], [c], rfl, rfl, by show idx + 1 ≤ 63; omega, ?_, ?_, Or.inr ⟨?_, Or.inr ⟨t, rfl, hto⟩⟩⟩
            · show buf.set idx c = buf.take idx ++ [c] ++ buf.drop (idx + [c].length)
              rw [List.set_eq_take_append_cons_drop, if_pos (by omega)]
              simp
            · intro c' hc'
              rw [List.mem_singleton.1 hc']
              exact hc
            · simp [arrived, hrx]
          · next hto =>
            obtain ⟨used, stored, h1, h2, h3, h4, h5, h6⟩ :=
              ih (idx + 1) (buf.set idx c) rx1 e h (by omega) (by simp [hlen])
            refine ⟨t :: used, c :: stored, by simp [h1], ?_, h3, ?_, ?_, ?_⟩
            · rw [h2]; simp only [List.length_cons]; omega
            · rw [h4, take_succ_set buf idx c (by omega),
                List.drop_set_of_lt c buf (by omega : idx < idx + 1 + stored.length)]
              simp only [List.length_cons, List.append_assoc, List.singleton_append]
              have : idx + 1 + stored.length = idx + (stored.length + 1) := by omega
              rw [this]
            · intro c' hc'
              rcases List.mem_cons.1 hc' with e1 | e1
              · rw [e1]; exact hc
              · exact h5 c' e1
            · have hs : rx ++ arrived (t :: used) = c :: (rx1 ++ arrived used) := by
                simp only [arrived]
                rw [← List.append_assoc, hrx]
                rfl
              rcases h6 with ⟨c', hc', h7⟩ | ⟨h7, h8⟩
              · refine Or.inl ⟨c', hc', ?_⟩
                rw [hs, h7]
                rfl
              · refine Or.inr ⟨by rw [hs, h7]; rfl, ?_⟩
                rcases h8 with h8 | ⟨t', h8, h9⟩
                · exact Or.inl h8
                · exact Or.inr ⟨t', getLast?_cons_of_getLast? t t' used h8, h9⟩
      · next hrx =>
        split at h
        · next hto =>
          have e1 := Option.some.inj h
          subst e1
          refine ⟨[t], [], rfl, rfl, hidx, by simp, by simp, Or.inr ⟨?_, Or.inr ⟨t, rfl, hto⟩⟩⟩
          simp [arrived, hrx]
        · next hto =>
          obtain ⟨used, stored, h1, h2, h3, h4, h5, h6⟩ := ih idx buf [] e h hidx hlen
          refine ⟨t :: used, stored, by simp [h1], h2, h3, h4, h5, ?_⟩
          have hs : rx ++ arrived (t :: used) = [] ++ arrived used := by
            simp only [arrived]
            rw [← List.append_assoc, hrx]
          rcases h6 with ⟨c', hc', h7⟩ | ⟨h7, h8⟩
          · exact Or.inl ⟨c', hc', by rw [hs, h7]⟩
          · refine Or.inr ⟨by rw [hs, h7], ?_⟩
            rcases h8 with h8 | ⟨t', h8, h9⟩
            · exact Or.inl h8
            · exact Or.inr ⟨t', getLast?_cons_of_getLast? t t' used h8, h9⟩
    · next hlt =>
      have e1 := Option.some.inj h
      subst e1
      simp only [CMD_BUFFER_SIZE] at hlt
      refine ⟨[], [], rfl, rfl, hidx, by simp, by simp, Or.inr ⟨by simp [arrived], Or.inl ?_⟩⟩
      show idx = 63
      omega

theorem readLoop_isSome (startTime : Nat) (ticks : List Tick)
    (h : ∃ t ∈ ticks, 100 < elapsed startTime t.now) :
    ∀ (idx : Nat) (buf rx : List Nat), (readLoop startTime ticks idx buf rx).isSome = true := by
  induction ticks with
  | nil =>
    obtain ⟨t, ht, _⟩ := h
    simp at ht
  | cons t ts ih =>
    intro idx buf rx
    have hrec : ¬ (100 < elapsed startTime t.now) → ∃ t' ∈ ts, 100 < elapsed startTime t'.now := by
      intro hn
      obtain ⟨t', ht', h2⟩ := h
      rcases List.mem_cons.1 ht' with e1 | e1
      · subst e1; exact absurd h2 hn
      · exact ⟨t', e1, h2⟩
    unfold readLoop
    split
    · split
      · split
        · rfl
        · split
          · rfl
          · next hto => exact ih (hrec hto) _ _ _
      · split
        · rfl
        · next hto => exact ih (hrec hto) _ _ _
    · rfl

theorem set_stored_append (stored buf : List Nat) (h : stored.length < buf.length) :
    (stored ++ buf.drop stored.length).set stored.length 0
      = stored ++ 0 :: buf.drop (stored.length + 1) := by
  rw [List.set_append, if_neg (by omega), Nat.sub_self, List.drop_eq_getElem_cons h]
  rfl

/-- C1: `readCommand` returns false, leaves the buffer alone and consumes nothing
when no byte is available on entry. Otherwise, whenever it returns, the buffer
holds the line, a NUL right after it, and its old contents beyond; the line is
exactly the bytes the call took from the serial stream before it stopped, which
it did at the first `\n` or `\r` (taken from the stream, not stored), or with 63
bytes stored, or at a pass where more than 100 ms had elapsed; the line has at
most 63 bytes and no `\n` or `\r`; the result is true exactly when the line is
non-empty, so it is false when the first byte is a terminator; the C string in
the buffer is the line when the line has no NUL byte. The call returns as soon
as some pass sees more than 100 ms elapsed. -/
theorem readCommand_spec (cmdBuffer rx : List Nat) (startTime : Nat) (ticks : List Tick)
    (hlen : cmdBuffer.length = CMD_BUFFER_SIZE) :
    (rx = [] → readCommand cmdBuffer rx startTime ticks = some ⟨false, cmdBuffer, [], ticks⟩) ∧
    (rx ≠ [] → (∃ t ∈ ticks, 100 < elapsed startTime t.now) →
      (readCommand cmdBuffer rx startTime ticks).isSome = true) ∧
    (rx ≠ [] → ∀ r, readCommand cmdBuffer rx startTime ticks = some r →
      ∃ used line,
        ticks = used ++ r.rest ∧
        r.cmdBuffer = line ++ 0 :: cmdBuffer.drop (line.length + 1) ∧
        line.length ≤ 63 ∧
        (∀ c ∈ line, c ≠ 10 ∧ c ≠ 13) ∧
        (r.ret = true ↔ line ≠ []) ∧
        (0 ∉ line → cstr r.cmdBuffer = line) ∧
        ((∃ c, (c = 10 ∨ c = 13) ∧ rx ++ arrived used = line ++ c :: r.rx) ∨
         (rx ++ arrived used = line ++ r.rx ∧
           (line.length = 63 ∨
             ∃ t, used.getLast? = some t ∧ 100 < elapsed startTime t.now))) ∧
        (∀ c rest, rx = c :: rest → c = 10 ∨ c = 13 → r.ret = false)) := by
  refine ⟨?_, ?_, ?_⟩
  · intro h
    subst h
    simp [readCommand]
  · intro h hto
    unfold readCommand
    rw [if_neg h]
    have := readLoop_isSome startTime ticks hto 0 cmdBuffer rx
    cases hl : readLoop startTime ticks 0 cmdBuffer rx with
    | none => rw [hl] at this; simp at this
    | some e => rfl
  · intro h r hr
    unfold readCommand at hr
    rw [if_neg h] at hr
    cases hl : readLoop startTime ticks 0 cmdBuffer rx with
    | none => rw [hl] at hr; simp at hr
    | some e =>
      rw [hl] at hr
      have e1 := Option.some.inj hr
      subst e1
      obtain ⟨used, stored, h1, h2, h3, h4, h5, h6⟩ :=
        readLoop_spec startTime ticks 0 cmdBuffer rx e hl (by omega) hlen
      simp only [Nat.zero_add, List.take_zero, List.nil_append] at h2 h4
      have hbuf : e.cmdBuffer.set e.idx 0 = stored ++ 0 :: cmdBuffer.drop (stored.length + 1) := by
        rw [h4, h2]
        exact set_stored_append stored cmdBuffer (by rw [hlen, ← h2, CMD_BUFFER_SIZE]; omega)
      have hret : (decide (e.idx > 0) = true ↔ stored ≠ []) := by
        rw [decide_eq_true_iff, h2]
        constructor
        · intro hp hn
          rw [hn] at hp
          simp at hp
        · intro hn
          exact List.length_pos.2 hn
      refine ⟨used, stored, h1, hbuf, by omega, h5, hret, ?_, ?_, ?_⟩
      · intro h0
        show cstr (e.cmdBuffer.set e.idx 0) = stored
        rw [hbuf]
        exact cstr_append_zero h0 _
      · rcases h6 with h6 | ⟨h7, h8⟩
        · exact Or.inl h6
        · refine Or.inr ⟨h7, ?_⟩
          rcases h8 with h8 | h8
          · exact Or.inl (by omega)
          · exact Or.inr h8
      · intro c rest hrx hc
        show decide (e.idx > 0) = false
        have hnil : stored = [] := by
          cases hs : stored with
          | nil => rfl
          | cons s ss =>
            exfalso
            have hmem : s ∈ stored := by rw [hs]; exact List.mem_cons_self _ _
            have hne := h5 s hmem
            have hhead : s = c := by
              rcases h6 with ⟨c', _, h7⟩ | ⟨h7, _⟩
              · rw [hrx, hs] at h7
                exact ((List.cons.inj h7).1).symm
              · rw [hrx, hs] at h7
                exact ((List.cons.inj h7).1).symm
            rw [hhead] at hne
            rcases hc with hc | hc
            · exact hne.1 hc
            · exact hne.2 hc
        rw [h2, hnil]
        rfl

/-- Witness of C1: the bytes `St` are waiting, nothing arrives for three passes,
then `op` arrives in a pass that sees 101 ms elapsed: the call stores `Sto` and
a NUL over stale bytes, leaves `p` unread and returns true. -/
theorem readCommand_spec_witness :
    (List.replicate 64 7).length = CMD_BUFFER_SIZE ∧
      (∃ t ∈ [(⟨[], 5⟩ : Tick), ⟨[], 5⟩, ⟨[], 60⟩, ⟨bytes "op", 106⟩, ⟨[], 200⟩],
        100 < elapsed 5 t.now) ∧
      (readCommand (List.replicate 64 7) (bytes "St") 5
        [⟨[], 5⟩, ⟨[], 5⟩, ⟨[], 60⟩, ⟨bytes "op", 106⟩, ⟨[], 200⟩]).isSome = true ∧
      readCommand (List.replicate 64 7) (bytes "St") 5
        [⟨[], 5⟩, ⟨[], 5⟩, ⟨[], 60⟩, ⟨bytes "op", 106⟩, ⟨[], 200⟩]
        = some ⟨true, bytes "Sto" ++ 0 :: List.replicate 60 7, bytes "p", [⟨[], 200⟩]⟩ :=
  ⟨by decide, by decide,
    (readCommand_spec (List.replicate 64 7) (bytes "St") 5
      [⟨[], 5⟩, ⟨[], 5⟩, ⟨[], 60⟩, ⟨bytes "op", 106⟩, ⟨[], 200⟩] (by decide)).2.1
      (by decide) (by decide),
    by decide⟩

/-- C10: in every run of `loop` under a clock that never decreases and does not
wrap, two consecutive streamed load lines carry clock stamps at least 50 ms
apart, and so do two consecutive sensor polls; `ReportLoadCell` neither reads nor
writes the timestamp of `ProcessSensors`, and `ProcessSensors` neither reads nor
writes the timestamp of `ReportLoadCell`. -/
theorem rate_limiters (m : Machine) (es : List LoopEnv) (ls ss : List Nat)
    (hrun : runStamps m es = some (ls, ss))
    (hmono : (clockReadings es).Pairwise (fun a b => a ≤ b))
    (hwrap : ∀ t ∈ clockReadings es, t < 2 ^ 32) :
    ls.Chain' (fun a b => a + 50 ≤ b) ∧
    ss.Chain' (fun a b => a + 50 ≤ b) ∧
    (∀ (g : Globals) (a b d : Nat),
      (ReportLoadCell g a b).1.delayTimeSensors = g.delayTimeSensors ∧
      (ReportLoadCell { g with delayTimeSensors := d } a b).2 = (ReportLoadCell g a b).2) ∧
    (∀ (g : Globals) (a b d : Nat) (position : Int) (speed : ℚ),
      (ProcessSensors g a b position speed).1.delayTimeLoadCell = g.delayTimeLoadCell ∧
      (ProcessSensors { g with delayTimeLoadCell := d } a b position speed).2
        = (ProcessSensors g a b position speed).2) := by
  refine ⟨(load_stamps_spaced es m ls ss hrun hmono hwrap).chain',
    (sensor_stamps_spaced es m ls ss hrun hmono hwrap).chain', ?_, ?_⟩
  · intro g a b d
    refine ⟨(ReportLoadCell_cases g a b).1, ?_⟩
    unfold ReportLoadCell
    split_ifs <;> rfl
  · intro g a b d position speed
    refine ⟨(ProcessSensors_cases g a b position speed).1, ?_⟩
    unfold ProcessSensors
    split_ifs <;> rfl

/-- Witness of C10: four passes at 100, 120, 160 and 215 ms with load streaming
on: a load line is written in the passes at 100, 160 and 215 only (stamps 101,
161, 216) and the sensors are polled in the same passes (stamps 103, 163,
218). -/
theorem rate_limiters_witness :
    runStamps streamingMachine [quietPass 100, quietPass 120, quietPass 160, quietPass 215]
        = some ([101, 161, 216], [103, 163, 218]) ∧
      (clockReadings [quietPass 100, quietPass 120, quietPass 160, quietPass 215]).Pairwise
        (fun a b => a ≤ b) ∧
      (∀ t ∈ clockReadings [quietPass 100, quietPass 120, quietPass 160, quietPass 215],
        t < 2 ^ 32) ∧
      [101, 161, 216].Chain' (fun a b => a + 50 ≤ b) ∧
      [103, 163, 218].Chain' (fun a b => a + 50 ≤ b) :=
  ⟨by decide, by decide, by decide,
    (rate_limiters streamingMachine
      [quietPass 100, quietPass 120, quietPass 160, quietPass 215] [101, 161, 216] [103, 163, 218]
      (by decide) (by decide) (by decide)).1,
    (rate_limiters streamingMachine
      [quietPass 100, quietPass 120, quietPass 160, quietPass 215] [101, 161, 216] [103, 163, 218]
      (by decide) (by decide) (by decide)).2.1⟩

/-! ## Further properties of the parser and the dispatch chain -/

/-- `is(cmd)` is true exactly when the current line is `cmd`, byte for byte. -/
theorem is_spec (cmdBuffer cmd : List Nat) :
    (is cmdBuffer cmd = true ↔ cstr cmdBuffer = cstr cmd) ∧
    is (bytes "Stop") (bytes "Stop") = true ∧
    is (bytes "stop") (bytes "Stop") = false ∧
    is (bytes "Stop ") (bytes "Stop") = false ∧
    is (bytes "Sto") (bytes "Stop") = false :=
  ⟨is_iff _ _, by decide, by decide, by decide, by decide⟩

/-- Dispatching `LoadCellOn` sets the load streaming flag and dispatching
`LoadCellOff` clears it, whatever the flag was; neither makes a call nor changes
another global. -/
theorem dispatch_LoadCell_toggle (g : Globals) (st : StepperReplies) :
    (cstr g.cmdBuffer = bytes "LoadCellOn" →
      dispatch g st = ({ g with readLoadCell := true }, [])) ∧
    (cstr g.cmdBuffer = bytes "LoadCellOff" →
      dispatch g st = ({ g with readLoadCell := false }, [])) := by
  constructor
  · intro h
    rw [dispatch_eq_firstMatch, conditions_eq_lineConditions, h]
    have e : lineConditions (bytes "LoadCellOn") =
        [true, false, false, false, false, false, false, false, false, false, false, false,
         false, false, false, false, false, false, false] := by decide
    rw [e]
    rfl
  · intro h
    rw [dispatch_eq_firstMatch, conditions_eq_lineConditions, h]
    have e : lineConditions (bytes "LoadCellOff") =
        [false, true, false, false, false, false, false, false, false, false, false, false,
         false, false, false, false, false, false, false] := by decide
    rw [e]
    rfl

/-- The bytes `GetVersion` and a newline arriving on the serial port of the
freshly started firmware make `ProcessSerialCommands` write `Firmware Version: `
and the line `1.2.0`, and nothing else; the lines `version` and `v` are answered
the same way. -/
theorem ProcessSerialCommands_GetVersion :
    (ProcessSerialCommands Globals.initial (bytes "GetVersion" ++ [10]) 0
        (List.replicate 11 ⟨[], 0⟩) ⟨0, 100⟩).map (fun r => r.effects)
      = some [.print "Firmware Version: ", .println "1.2.0"] ∧
    (dispatch { Globals.initial with cmdBuffer := bytes "version" } ⟨0, 100⟩).2
      = [.print "Firmware Version: ", .println "1.2.0"] ∧
    (dispatch { Globals.initial with cmdBuffer := bytes "v" } ⟨0, 100⟩).2
      = [.print "Firmware Version: ", .println "1.2.0"] := by
  decide

end UTM
